import Mathlib

/-!
Verification development for the OpenMDAO core sample:
`openmdao/jacobians/dictionary_jacobian.py` (DictionaryJacobian: `_iter_abs_keys`,
`_apply`) and `openmdao/core/problem.py` (Problem: `setup`, `setup_vector`).

Numeric values are embedded as exact integers (`Int`); numpy arrays become
total functions together with explicit sizes.  A flat multi-column view
`_views_flat[name]` becomes `flat name i j` = entry of column `i` at flat
position `j`; single-column arrays live in column `0`.
-/

/- ===================== Jacobian data model ===================== -/

/-- The `'value'` field of a subjac-info dict: a flat COO value array
(sparse list format) or a 2-D array (dense). -/
inductive SJVal where
  | flat (v : Nat → Int)
  | mat (a : Nat → Nat → Int)

/-- One entry of `_subjacs_info`: `rows` is `None` (dense) or the COO row
index array; `cols` the COO column index array; `(nrows, ncols)` is
`'shape'`; `nnz` the length of the `rows`/`cols`/flat-value arrays. -/
structure SubjacInfo where
  rows : Option (Nat → Nat)
  nnz : Nat
  cols : Nat → Nat
  nrows : Nat
  ncols : Nat
  value : SJVal

/-- `True` when the kind of the stored value array matches the storage
format (flat array with COO `rows`, 2-D array when `rows` is `None`). -/
def SubjacInfo.valMatches : SubjacInfo → Bool
  | info =>
    match info.rows, info.value with
    | some _, SJVal.flat _ => true
    | none, SJVal.mat _ => true
    | _, _ => false

/-- A linear vector (`d_inputs` / `d_outputs` / `d_residuals`): its `_name`,
its active-names set `_names`, its column count `_ncol`, its flat views
`_views_flat`, and the (spec-modelled) scaled-representation flag. -/
structure VecE where
  vname : String
  names : List String
  ncol : Nat
  flat : String → Nat → Nat → Int
  scaled : Bool

/-- Replace the flat view of one variable, leaving every other view as is. -/
def VecE.setFlat (v : VecE) (name : String) (g : Nat → Nat → Int) : VecE :=
  { v with flat := fun n => if n = name then g else v.flat n }

/-- The three linear vectors handed to `_apply`. -/
structure AState where
  dinp : VecE
  dout : VecE
  dres : VecE

def AState.setRes (st : AState) (name : String) (g : Nat → Nat → Int) : AState :=
  { st with dres := st.dres.setFlat name g }

def AState.setOut (st : AState) (name : String) (g : Nat → Nat → Int) : AState :=
  { st with dout := st.dout.setFlat name g }

def AState.setInp (st : AState) (name : String) (g : Nat → Nat → Int) : AState :=
  { st with dinp := st.dinp.setFlat name g }

/-- The part of a `System` that `DictionaryJacobian` consults: its
`pathname`, its `_var_relevant_names[vec_name][typ]` table, and whether it
is an `ExplicitComponent` instance. -/
structure SystemE where
  pathname : String
  var_relevant_names : String → String → List String
  is_explicit : Bool

/-- Python-dict lookup on an association list (first matching key wins;
dict keys are unique so the order of duplicates never matters). -/
def dictLookup {α β : Type} [DecidableEq α] : List (α × β) → α → Option β
  | [], _ => none
  | kv :: rest, k => if k = kv.1 then some kv.2 else dictLookup rest k

/-- The `DictionaryJacobian` object: `_subjacs_info`, the `_iter_keys`
cache (keyed by `(system.pathname, vec_name)`), and the `_randomize`
test-only machinery of the `Jacobian` base class. -/
structure DictionaryJacobian where
  subjacs_info : List ((String × String) × SubjacInfo)
  iter_keys : List ((String × String) × List (String × String))
  randomize : Bool
  randomize_subjac : SJVal → (String × String) → SJVal

/-- Body of `_iter_abs_keys`: for each relevant output `res_name` of the
RHS vector, and each relevant `output` then `input` name, keep the pair
when `_subjacs_info` holds an entry for it.  (The CSC conversion cached on
the side in the source only re-expresses the same COO triplets; the matrix
it represents is folded directly into the product definitions below.) -/
def iterAbsKeys (system : SystemE) (subjacs : List ((String × String) × SubjacInfo))
    (vec_name : String) : List (String × String) :=
  (system.var_relevant_names vec_name "output").flatMap fun res_name =>
    (["output", "input"]).flatMap fun t =>
      ((system.var_relevant_names vec_name t).filter fun name =>
        (dictLookup subjacs (res_name, name)).isSome).map fun name => (res_name, name)

/-- `_iter_abs_keys` with its `_iter_keys` memo: on a miss the key list is
computed and stored under `(system.pathname, vec_name)`; on a hit the
cached list is returned and nothing is recomputed. -/
def iterAbsKeysCached (J : DictionaryJacobian) (system : SystemE) (vec_name : String) :
    List (String × String) × DictionaryJacobian :=
  let entry := (system.pathname, vec_name)
  match dictLookup J.iter_keys entry with
  | some keys => (keys, J)
  | none =>
      let keys := iterAbsKeys system J.subjacs_info vec_name
      (keys, { J with iter_keys := J.iter_keys ++ [(entry, keys)] })

/- ===================== products and scatter-adds ===================== -/

/-- Net effect at position `j` of `np.add.at(r, rows, x[cols] * subjac)`:
`np.add.at` is an unbuffered scatter-add, so position `j` gains the sum of
`x (cols k) * vals k` over every `k` with `rows k = j`. -/
def cooDot (nnz : Nat) (rows cols : Nat → Nat) (vals : Nat → Int)
    (x : Nat → Int) (j : Nat) : Int :=
  ∑ k ∈ Finset.range nnz, if rows k = j then x (cols k) * vals k else 0

/-- Net effect at position `c` of `np.add.at(o, cols, y[rows] * subjac)`
(the reverse-mode scatter-add, row/col roles swapped). -/
def cooTDot (nnz : Nat) (rows cols : Nat → Nat) (vals : Nat → Int)
    (y : Nat → Int) (c : Nat) : Int :=
  ∑ k ∈ Finset.range nnz, if cols k = c then y (rows k) * vals k else 0

/-- `csc.dot x` at position `j`, where `csc` is the CSC matrix built from
the COO triplets with the current values (`csc.data[inds] = subjac` keeps
the cached pattern's data equal to the current value array).  A CSC
matvec accumulates column by column, so the sum is grouped by column
index; duplicate coordinates sum, exactly as in the COO form. -/
def cscDot (ncols nnz : Nat) (rows cols : Nat → Nat) (vals : Nat → Int)
    (x : Nat → Int) (j : Nat) : Int :=
  ∑ c ∈ Finset.range ncols, ∑ k ∈ Finset.range nnz,
    if cols k = c ∧ rows k = j then vals k * x (cols k) else 0

/-- `csc.transpose().dot y` at position `c`: the transposed accumulation,
grouped by row index of the original matrix. -/
def cscTDot (nrows nnz : Nat) (rows cols : Nat → Nat) (vals : Nat → Int)
    (y : Nat → Int) (c : Nat) : Int :=
  ∑ r ∈ Finset.range nrows, ∑ k ∈ Finset.range nnz,
    if rows k = r ∧ cols k = c then vals k * y (rows k) else 0

/-- `subjac.dot x` for a dense 2-D `subjac` of shape `(nrows, ncols)`. -/
def denseDot (a : Nat → Nat → Int) (ncols : Nat) (x : Nat → Int) (j : Nat) : Int :=
  ∑ c ∈ Finset.range ncols, a j c * x c

/-- `subjac.T.dot y` for a dense 2-D `subjac` of shape `(nrows, ncols)`. -/
def denseTDot (a : Nat → Nat → Int) (nrows : Nat) (y : Nat → Int) (c : Nat) : Int :=
  ∑ r ∈ Finset.range nrows, a r c * y r

/- ===================== the apply loop ===================== -/

/-- The effect of one iteration of the key loop on the vectors: either a
Python exception, no touch, or an in-place overwrite of the flat view of
one variable in one of the three vectors. -/
inductive Eff where
  | err
  | skip
  | wres (g : Nat → Nat → Int)
  | wout (g : Nat → Nat → Int)
  | winp (g : Nat → Nat → Int)

/-- Constructor tag of an effect. -/
def Eff.kind : Eff → Nat
  | Eff.err => 0
  | Eff.skip => 1
  | Eff.wres _ => 2
  | Eff.wout _ => 3
  | Eff.winp _ => 4

/-- Whether the effect is exception-free. -/
def Eff.okFlag : Eff → Bool
  | Eff.err => false
  | _ => true

/-- Perform an effect on the vector state: `wres` overwrites the response
variable's residual view, `wout`/`winp` the source variable's output/input
view. -/
def runEff (st : AState) (abs_key : String × String) : Eff → AState × Bool
  | Eff.err => (st, false)
  | Eff.skip => (st, true)
  | Eff.wres g => (st.setRes abs_key.1 g, true)
  | Eff.wout g => (st.setOut abs_key.2 g, true)
  | Eff.winp g => (st.setInp abs_key.2 g, true)

/-- One iteration of the key loop in `_apply` (lines 125-190), as the
effect it has: look up the subjac info (a missing key would be a
`KeyError`, i.e. `err`), take the `_randomize` branch for the value, then
dispatch on active names, storage format and mode exactly as the source
does.  Arguments `rnames`/`onames`/`inames` and `ncol` are the vectors'
`_names` sets and `d_residuals._ncol`; `rflat`, `oflat`, `iflat` are the
flat views of the pair's response in `d_residuals` and of its source in
`d_outputs`/`d_inputs` — the only views any branch reads.  Per-column
operations touch the allocated columns `i < ncol`; the `ncol = 1` branches
act on column `0`.  A value array whose kind contradicts the storage
format would be a numpy shape error, i.e. `err`. -/
def applyEffect (system : SystemE) (J : DictionaryJacobian) (fwd : Bool)
    (rnames onames inames : List String) (ncol : Nat)
    (rflat oflat iflat : Nat → Nat → Int) (abs_key : String × String) : Eff :=
  -- the source's local bindings subjac / res_name / other_name / cols / nnz
  -- are inlined below: subjac is the if-randomize expression, res_name is
  -- abs_key.1, other_name is abs_key.2, cols / nnz come from subjac_info
  match dictLookup J.subjacs_info abs_key with
  | none => Eff.err
  | some subjac_info =>
    if abs_key.1 ∈ rnames then
      match subjac_info.rows with
      | some rows =>
        match (if J.randomize then J.randomize_subjac subjac_info.value abs_key
               else subjac_info.value) with
        | SJVal.mat _ => Eff.err
        | SJVal.flat v =>
          if abs_key.2 ∈ onames then
            if abs_key.1 = abs_key.2 ∧ system.is_explicit then
              -- skip the matvec mult completely for identity subjacs
              if fwd then
                Eff.wres (fun i j => if i < ncol then rflat i j - oflat i j else rflat i j)
              else
                Eff.wout (fun i j => if i < ncol then oflat i j - rflat i j else oflat i j)
            else
              if fwd then
                if ncol > 1 then
                  Eff.wres (fun i j => if i < ncol then
                    rflat i j + cooDot subjac_info.nnz rows subjac_info.cols v (oflat i) j
                    else rflat i j)
                else
                  Eff.wres (fun i j => if i < ncol then
                    rflat i j +
                      cscDot subjac_info.ncols subjac_info.nnz rows subjac_info.cols v
                        (oflat i) j
                    else rflat i j)
              else
                if ncol > 1 then
                  Eff.wout (fun i j => if i < ncol then
                    oflat i j + cooTDot subjac_info.nnz rows subjac_info.cols v (rflat i) j
                    else oflat i j)
                else
                  Eff.wout (fun i j => if i < ncol then
                    oflat i j +
                      cscTDot subjac_info.nrows subjac_info.nnz rows subjac_info.cols v
                        (rflat i) j
                    else oflat i j)
          else if abs_key.2 ∈ inames then
            if fwd then
              if ncol > 1 then
                Eff.wres (fun i j => if i < ncol then
                  rflat i j + cooDot subjac_info.nnz rows subjac_info.cols v (iflat i) j
                  else rflat i j)
              else
                Eff.wres (fun i j => if i < ncol then
                  rflat i j +
                    cscDot subjac_info.ncols subjac_info.nnz rows subjac_info.cols v
                      (iflat i) j
                  else rflat i j)
            else
              if ncol > 1 then
                Eff.winp (fun i j => if i < ncol then
                  iflat i j + cooTDot subjac_info.nnz rows subjac_info.cols v (rflat i) j
                  else iflat i j)
              else
                Eff.winp (fun i j => if i < ncol then
                  iflat i j +
                    cscTDot subjac_info.nrows subjac_info.nnz rows subjac_info.cols v
                      (rflat i) j
                  else iflat i j)
          else Eff.skip
      | none =>
        match (if J.randomize then J.randomize_subjac subjac_info.value abs_key
               else subjac_info.value) with
        | SJVal.flat _ => Eff.err
        | SJVal.mat a =>
          if abs_key.2 ∈ onames then
            if fwd then
              Eff.wres (fun i j => if i < ncol then
                rflat i j + denseDot a subjac_info.ncols (oflat i) j else rflat i j)
            else
              Eff.wout (fun i j => if i < ncol then
                oflat i j + denseTDot a subjac_info.nrows (rflat i) j else oflat i j)
          else if abs_key.2 ∈ inames then
            if fwd then
              Eff.wres (fun i j => if i < ncol then
                rflat i j + denseDot a subjac_info.ncols (iflat i) j else rflat i j)
            else
              Eff.winp (fun i j => if i < ncol then
                iflat i j + denseTDot a subjac_info.nrows (rflat i) j else iflat i j)
          else Eff.skip
    else Eff.skip

/-- One iteration of the key loop in `_apply`: compute the effect from the
current vectors and perform it in place. -/
def applyOne (system : SystemE) (J : DictionaryJacobian) (fwd : Bool)
    (st : AState) (abs_key : String × String) : AState × Bool :=
  runEff st abs_key (applyEffect system J fwd st.dres.names st.dout.names
    st.dinp.names st.dres.ncol (st.dres.flat abs_key.1) (st.dout.flat abs_key.2)
    (st.dinp.flat abs_key.2) abs_key)

/-- The key loop of `_apply`: process keys in order; an error (Python
exception) aborts the rest of the loop and propagates. -/
def applyLoop (system : SystemE) (J : DictionaryJacobian) (fwd : Bool) :
    List (String × String) → AState → AState × Bool
  | [], st => (st, true)
  | k :: ks, st =>
    match applyOne system J fwd st k with
    | (st2, true) => applyLoop system J fwd ks st2
    | (st2, false) => (st2, false)

/-- Modelled from the spec: `System._unscaled_context` (in
`openmdao/core/system.py`, which is not part of the sample) converts the
given outputs and residuals to the physically unscaled representation,
yields to the body, and restores the scaled representation on every exit
path, exceptions included.  Here the representation is tracked by the
`scaled` flag; no scale factors appear in the sample, so values are the
physical ones throughout. -/
def enterUnscaled (st : AState) : AState :=
  { st with dout := { st.dout with scaled := false },
            dres := { st.dres with scaled := false } }

/-- Modelled from the spec: run the body between entering the unscaled
representation and restoring the pre-call scaled flags, on both the
normal and the exceptional exit path. -/
def unscaledContext (body : AState → AState × Bool) (st : AState) : AState × Bool :=
  let pre_out := st.dout.scaled
  let pre_res := st.dres.scaled
  let r := body (enterUnscaled st)
  ({ r.1 with dout := { r.1.dout with scaled := pre_out },
              dres := { r.1.dres with scaled := pre_res } }, r.2)

/-- `DictionaryJacobian._apply`: fetch (or build) the cached key list for
`(system.pathname, d_residuals._name)` and run the key loop inside the
unscaled context.  Returns the final vectors, the no-exception flag, and
the jacobian with its possibly-extended `_iter_keys` cache. -/
def applyJac (system : SystemE) (J : DictionaryJacobian) (mode : String)
    (st : AState) : (AState × Bool) × DictionaryJacobian :=
  let fwd := mode == "fwd"
  let p := iterAbsKeysCached J system st.dres.vname
  (unscaledContext (fun s => applyLoop system p.2 fwd p.1 s) st, p.2)

/- ===================== Problem.setup pipeline ===================== -/

/-- The ordered passes of `Problem.setup` (and the final
`setup_vector` call), as trace events; the index-assignment event records
the two integer offsets it is started with. -/
inductive SetupEvent where
  | setup_processors
  | setup_variables
  | setup_variable_indices (input_offset : Nat) (output_offset : Nat)
  | setup_connections
  | setup_solvers
  | assembler_setup_variables
  | assembler_setup_connections
  | assembler_setup_input_indices
  | setup_vector_call
deriving DecidableEq

/-- The `{'input': ..., 'output': ...}` offsets dict handed to
`_setup_variable_indices`. -/
structure Offsets where
  input : Nat
  output : Nat

/-- The root `System`'s recursive setup passes, as transformers of an
abstract model state `σ` (each may fail; reads of root attributes that
feed later calls are absorbed into `σ`). -/
structure RootSys (σ : Type) where
  setup_processors : σ → Option σ
  setup_variables : σ → Option σ
  setup_variable_indices : Offsets → σ → Option σ
  setup_connections : σ → Option σ
  setup_solvers : σ → Option σ

/-- The Assembler's three setup calls, likewise over the abstract state. -/
structure AssemblerE (σ : Type) where
  setup_variables : σ → Option σ
  setup_connections : σ → Option σ
  setup_input_indices : σ → Option σ

/-- Run one pass: on success append its event to the trace; on failure
abort with the trace of the attempted passes (the failing one included). -/
def passStep {σ : Type} (e : SetupEvent) (f : σ → Option σ) :
    Except (List SetupEvent) (σ × List SetupEvent) →
    Except (List SetupEvent) (σ × List SetupEvent)
  | Except.error tr => Except.error tr
  | Except.ok (s, tr) =>
    match f s with
    | some s2 => Except.ok (s2, tr ++ [e])
    | none => Except.error (tr ++ [e])

/-- `Problem.setup`: the straight-line sequence of lines 74-98 of
`problem.py` — five recursive root passes (the index pass started with the
offsets `{'input': 0, 'output': 0}`), then the three Assembler calls,
then `setup_vector`.  Any failure propagates. -/
def problemSetup {σ : Type} (root : RootSys σ) (asm : AssemblerE σ)
    (vector_pass : σ → Option σ) (s : σ) :
    Except (List SetupEvent) (σ × List SetupEvent) :=
  Except.ok (s, [])
    |> passStep SetupEvent.setup_processors root.setup_processors
    |> passStep SetupEvent.setup_variables root.setup_variables
    |> passStep (SetupEvent.setup_variable_indices 0 0)
         (root.setup_variable_indices { input := 0, output := 0 })
    |> passStep SetupEvent.setup_connections root.setup_connections
    |> passStep SetupEvent.setup_solvers root.setup_solvers
    |> passStep SetupEvent.assembler_setup_variables asm.setup_variables
    |> passStep SetupEvent.assembler_setup_connections asm.setup_connections
    |> passStep SetupEvent.assembler_setup_input_indices asm.setup_input_indices
    |> passStep SetupEvent.setup_vector_call vector_pass

/-- The trace of one fully successful `Problem.setup`. -/
def fullSetupTrace : List SetupEvent :=
  [SetupEvent.setup_processors, SetupEvent.setup_variables,
   SetupEvent.setup_variable_indices 0 0, SetupEvent.setup_connections,
   SetupEvent.setup_solvers, SetupEvent.assembler_setup_variables,
   SetupEvent.assembler_setup_connections, SetupEvent.assembler_setup_input_indices,
   SetupEvent.setup_vector_call]

/-- `Problem.setup_vector` (lines 112-124): build the `vectors` dict by
looping over `['input', 'output', 'residual']`, constructing
`VectorClass(vec_name, typ, root)` where `typ` is `'output'` for the
`'residual'` key and the key itself otherwise. -/
def setupVector {ρ Vec : Type} (VectorClass : Option String → String → ρ → Vec)
    (vec_name : Option String) (root : ρ) : List (String × Vec) :=
  (["input", "output", "residual"]).map fun key =>
    (key, VectorClass vec_name (if key = "residual" then "output" else key) root)

/- ===== derived notions for the application engine ===== -/

/-- The triple filter of the engine: the pair's response is in the
residual vector's active-names set and its source is in the active-names
set of the outputs or of the inputs vector. -/
def activePair (rnames onames inames : List String) (k : String × String) : Prop :=
  k.1 ∈ rnames ∧ (k.2 ∈ onames ∨ k.2 ∈ inames)

instance (rnames onames inames : List String) (k : String × String) :
    Decidable (activePair rnames onames inames k) := by
  unfold activePair
  exact inferInstance

/-- The pairs a call to `_apply` can act on: iterated keys (relevant, with
a defined sub-Jacobian) whose response and source are active. -/
def appliedKeys (system : SystemE) (J : DictionaryJacobian) (st : AState) :
    List (String × String) :=
  (iterAbsKeys system J.subjacs_info st.dres.vname).filter fun k =>
    decide (activePair st.dres.names st.dout.names st.dinp.names k)

/-- Two vector states agree on the entries of every pair in `A`: on the
residual entry of the response and on the entry of the source in its
corresponding vector (outputs when the source is output-active, inputs
otherwise), mirroring which entries the engine reads. -/
def statesAgree (A : List (String × String)) (onames : List String)
    (s t : AState) : Prop :=
  ∀ k ∈ A, s.dres.flat k.1 = t.dres.flat k.1 ∧
    (k.2 ∈ onames → s.dout.flat k.2 = t.dout.flat k.2) ∧
    (k.2 ∉ onames → s.dinp.flat k.2 = t.dinp.flat k.2)

/-- A size-`n` identity sub-Jacobian in COO sparse list format. -/
def identitySubjac (n : Nat) : SubjacInfo :=
  { rows := some (fun k => k), nnz := n, cols := fun k => k,
    nrows := n, ncols := n, value := SJVal.flat (fun _ => 1) }

/-- A size-`n` negated identity sub-Jacobian in COO sparse list format. -/
def negIdentitySubjac (n : Nat) : SubjacInfo :=
  { rows := some (fun k => k), nnz := n, cols := fun k => k,
    nrows := n, ncols := n, value := SJVal.flat (fun _ => -1) }

/-- The same system with the explicit-component flag cleared, which makes
the engine take the general matrix path on self pairs. -/
def asImplicit (system : SystemE) : SystemE :=
  { system with is_explicit := false }

/- ===================== concrete instances ===================== -/

/-- A one-variable explicit component: one relevant output `y`, one
relevant input `x`. -/
def exSysExp : SystemE :=
  { pathname := "comp"
    var_relevant_names := fun _ t => if t = "output" then ["y"] else ["x"]
    is_explicit := true }

def exVecInp : VecE :=
  { vname := "lin", names := ["x"], ncol := 1, flat := fun _ _ _ => 0, scaled := true }

def exVecOut : VecE :=
  { vname := "lin", names := ["y"], ncol := 1,
    flat := fun n _ _ => if n = "y" then 1 else 0, scaled := true }

def exVecRes : VecE :=
  { vname := "lin", names := ["y"], ncol := 1, flat := fun _ _ _ => 0, scaled := true }

/-- Concrete vector state: `d_outputs[y] = [1]`, `d_residuals[y] = [0]`,
`d_inputs[x] = [0]`, single column. -/
def exSt : AState :=
  { dinp := exVecInp, dout := exVecOut, dres := exVecRes }

/-- A jacobian whose only entry is a stored `+1` identity on the self pair
`(y, y)` in sparse list format. -/
def exJplusI : DictionaryJacobian :=
  { subjacs_info := [(("y", "y"), identitySubjac 1)], iter_keys := [],
    randomize := false, randomize_subjac := fun v _ => v }

/-- A jacobian whose only entry is the negated identity on `(y, y)`. -/
def exJnegI : DictionaryJacobian :=
  { subjacs_info := [(("y", "y"), negIdentitySubjac 1)], iter_keys := [],
    randomize := false, randomize_subjac := fun v _ => v }

/-- A dense `1 × 1` sub-Jacobian holding the value `2`. -/
def denseTwoSubjac : SubjacInfo :=
  { rows := none, nnz := 0, cols := fun _ => 0, nrows := 1, ncols := 1,
    value := SJVal.mat (fun _ _ => 2) }

/-- A jacobian whose only entry is the dense `2` on the self pair. -/
def exJdense : DictionaryJacobian :=
  { subjacs_info := [(("y", "y"), denseTwoSubjac)], iter_keys := [],
    randomize := false, randomize_subjac := fun v _ => v }

/-- The `+1` identity jacobian with its `_iter_keys` cache already holding
the entry for `("comp", "lin")`. -/
def exJcached : DictionaryJacobian :=
  { exJplusI with iter_keys := [(("comp", "lin"), [("y", "y")])] }

def exVecInpM : VecE :=
  { vname := "lin", names := ["x"], ncol := 2, flat := fun _ _ _ => 0, scaled := true }

def exVecOutM : VecE :=
  { vname := "lin", names := ["y"], ncol := 2,
    flat := fun n i _ => if n = "y" then (i : Int) + 1 else 0, scaled := true }

def exVecResM : VecE :=
  { vname := "lin", names := ["y"], ncol := 2, flat := fun _ _ _ => 0, scaled := true }

/-- A two-column vector state: `d_outputs[y]` holds `1` in column `0` and
`2` in column `1`. -/
def exStM : AState :=
  { dinp := exVecInpM, dout := exVecOutM, dres := exVecResM }

/-- A root system over `Nat` model states whose every pass succeeds. -/
def exRootOk : RootSys Nat :=
  { setup_processors := fun s => some (s + 1)
    setup_variables := fun s => some (s + 1)
    setup_variable_indices := fun _ s => some (s + 1)
    setup_connections := fun s => some (s + 1)
    setup_solvers := fun s => some (s + 1) }

/-- An assembler over `Nat` model states whose every call succeeds. -/
def exAsmOk : AssemblerE Nat :=
  { setup_variables := fun s => some (s + 1)
    setup_connections := fun s => some (s + 1)
    setup_input_indices := fun s => some (s + 1) }

/-- A root system whose very first pass fails. -/
def exRootFail : RootSys Nat :=
  { exRootOk with setup_processors := fun _ => none }

/- ===================== helper lemmas ===================== -/

theorem passStep_some {σ : Type} (e : SetupEvent) (f : σ → Option σ) (s : σ)
    (tr : List SetupEvent) (s2 : σ) (h : f s = some s2) :
    passStep e f (Except.ok (s, tr)) = Except.ok (s2, tr ++ [e]) := by
  simp [passStep, h]

theorem passStep_none {σ : Type} (e : SetupEvent) (f : σ → Option σ) (s : σ)
    (tr : List SetupEvent) (h : f s = none) :
    passStep e f (Except.ok (s, tr)) = Except.error (tr ++ [e]) := by
  simp [passStep, h]

theorem passStep_error {σ : Type} (e : SetupEvent) (f : σ → Option σ)
    (tr : List SetupEvent) : passStep e f (Except.error tr) = Except.error tr := rfl

/-- Every run of `problemSetup` either succeeds with exactly the full
ordered trace, or fails with a nonempty prefix of it. -/
theorem problemSetup_shape {σ : Type} (root : RootSys σ) (asm : AssemblerE σ)
    (vector_pass : σ → Option σ) (s : σ) :
    (∃ s2, problemSetup root asm vector_pass s = Except.ok (s2, fullSetupTrace)) ∨
    (∃ tr rest, problemSetup root asm vector_pass s = Except.error tr ∧
      tr ≠ [] ∧ tr ++ rest = fullSetupTrace) := by
  unfold problemSetup
  cases h1 : root.setup_processors s with
  | none =>
    right
    refine ⟨[SetupEvent.setup_processors],
      [SetupEvent.setup_variables,
       SetupEvent.setup_variable_indices 0 0,
       SetupEvent.setup_connections,
       SetupEvent.setup_solvers,
       SetupEvent.assembler_setup_variables,
       SetupEvent.assembler_setup_connections,
       SetupEvent.assembler_setup_input_indices,
       SetupEvent.setup_vector_call], ?_, by simp, rfl⟩
    simp [passStep_none _ _ _ _ h1, passStep_error]
  | some s1 =>
    rw [passStep_some _ _ _ _ _ h1]
    cases h2 : root.setup_variables s1 with
    | none =>
      right
      refine ⟨[SetupEvent.setup_processors,
       SetupEvent.setup_variables],
        [SetupEvent.setup_variable_indices 0 0,
       SetupEvent.setup_connections,
       SetupEvent.setup_solvers,
       SetupEvent.assembler_setup_variables,
       SetupEvent.assembler_setup_connections,
       SetupEvent.assembler_setup_input_indices,
       SetupEvent.setup_vector_call], ?_, by simp, rfl⟩
      simp [passStep_none _ _ _ _ h2, passStep_error]
    | some s2 =>
      rw [passStep_some _ _ _ _ _ h2]
      cases h3 : root.setup_variable_indices { input := 0, output := 0 } s2 with
      | none =>
        right
        refine ⟨[SetupEvent.setup_processors,
       SetupEvent.setup_variables,
       SetupEvent.setup_variable_indices 0 0],
          [SetupEvent.setup_connections,
       SetupEvent.setup_solvers,
       SetupEvent.assembler_setup_variables,
       SetupEvent.assembler_setup_connections,
       SetupEvent.assembler_setup_input_indices,
       SetupEvent.setup_vector_call], ?_, by simp, rfl⟩
        simp [passStep_none _ _ _ _ h3, passStep_error]
      | some s3 =>
        rw [passStep_some _ _ _ _ _ h3]
        cases h4 : root.setup_connections s3 with
        | none =>
          right
          refine ⟨[SetupEvent.setup_processors,
       SetupEvent.setup_variables,
       SetupEvent.setup_variable_indices 0 0,
       SetupEvent.setup_connections],
            [SetupEvent.setup_solvers,
       SetupEvent.assembler_setup_variables,
       SetupEvent.assembler_setup_connections,
       SetupEvent.assembler_setup_input_indices,
       SetupEvent.setup_vector_call], ?_, by simp, rfl⟩
          simp [passStep_none _ _ _ _ h4, passStep_error]
        | some s4 =>
          rw [passStep_some _ _ _ _ _ h4]
          cases h5 : root.setup_solvers s4 with
          | none =>
            right
            refine ⟨[SetupEvent.setup_processors,
       SetupEvent.setup_variables,
       SetupEvent.setup_variable_indices 0 0,
       SetupEvent.setup_connections,
       SetupEvent.setup_solvers],
              [SetupEvent.assembler_setup_variables,
       SetupEvent.assembler_setup_connections,
       SetupEvent.assembler_setup_input_indices,
       SetupEvent.setup_vector_call], ?_, by simp, rfl⟩
            simp [passStep_none _ _ _ _ h5, passStep_error]
          | some s5 =>
            rw [passStep_some _ _ _ _ _ h5]
            cases h6 : asm.setup_variables s5 with
            | none =>
              right
              refine ⟨[SetupEvent.setup_processors,
       SetupEvent.setup_variables,
       SetupEvent.setup_variable_indices 0 0,
       SetupEvent.setup_connections,
       SetupEvent.setup_solvers,
       SetupEvent.assembler_setup_variables],
                [SetupEvent.assembler_setup_connections,
       SetupEvent.assembler_setup_input_indices,
       SetupEvent.setup_vector_call], ?_, by simp, rfl⟩
              simp [passStep_none _ _ _ _ h6, passStep_error]
            | some s6 =>
              rw [passStep_some _ _ _ _ _ h6]
              cases h7 : asm.setup_connections s6 with
              | none =>
                right
                refine ⟨[SetupEvent.setup_processors,
       SetupEvent.setup_variables,
       SetupEvent.setup_variable_indices 0 0,
       SetupEvent.setup_connections,
       SetupEvent.setup_solvers,
       SetupEvent.assembler_setup_variables,
       SetupEvent.assembler_setup_connections],
                  [SetupEvent.assembler_setup_input_indices,
       SetupEvent.setup_vector_call], ?_, by simp, rfl⟩
                simp [passStep_none _ _ _ _ h7, passStep_error]
              | some s7 =>
                rw [passStep_some _ _ _ _ _ h7]
                cases h8 : asm.setup_input_indices s7 with
                | none =>
                  right
                  refine ⟨[SetupEvent.setup_processors,
       SetupEvent.setup_variables,
       SetupEvent.setup_variable_indices 0 0,
       SetupEvent.setup_connections,
       SetupEvent.setup_solvers,
       SetupEvent.assembler_setup_variables,
       SetupEvent.assembler_setup_connections,
       SetupEvent.assembler_setup_input_indices],
                    [SetupEvent.setup_vector_call], ?_, by simp, rfl⟩
                  simp [passStep_none _ _ _ _ h8, passStep_error]
                | some s8 =>
                  rw [passStep_some _ _ _ _ _ h8]
                  cases h9 : vector_pass s8 with
                  | none =>
                    right
                    refine ⟨[SetupEvent.setup_processors,
       SetupEvent.setup_variables,
       SetupEvent.setup_variable_indices 0 0,
       SetupEvent.setup_connections,
       SetupEvent.setup_solvers,
       SetupEvent.assembler_setup_variables,
       SetupEvent.assembler_setup_connections,
       SetupEvent.assembler_setup_input_indices,
       SetupEvent.setup_vector_call],
                      ([] : List SetupEvent), ?_, by simp, rfl⟩
                    simp [passStep_none _ _ _ _ h9, passStep_error]
                  | some s9 =>
                    left
                    refine ⟨s9, ?_⟩
                    simp [passStep_some _ _ _ _ _ h9, fullSetupTrace]

/-- C6: `Problem.setup` executes exactly the ordered passes — process
partitioning, variable discovery, index assignment started with offsets
`(0, 0)`, connection resolution, solver attachment, then the Assembler's
three setup calls (variables, connections, input/transfer indices) in
that order, then vector setup — and any pass failure propagates and
aborts the remaining passes. -/
theorem problem_setup_ordered_passes {σ : Type} (root : RootSys σ) (asm : AssemblerE σ)
    (vector_pass : σ → Option σ) (s : σ) :
    (∀ s2 tr, problemSetup root asm vector_pass s = Except.ok (s2, tr) →
      tr = fullSetupTrace) ∧
    (∀ tr, problemSetup root asm vector_pass s = Except.error tr →
      tr ≠ [] ∧ ∃ rest, tr ++ rest = fullSetupTrace) := by
  rcases problemSetup_shape root asm vector_pass s with ⟨s2, h⟩ | ⟨tr, rest, h, hne, hpre⟩
  · constructor
    · intro s3 tr3 h3
      rw [h] at h3
      cases h3
      rfl
    · intro tr3 h3
      rw [h] at h3
      cases h3
  · constructor
    · intro s3 tr3 h3
      rw [h] at h3
      cases h3
    · intro tr3 h3
      rw [h] at h3
      cases h3
      exact ⟨hne, rest, hpre⟩

/-- Witness for C6: a concrete all-successful run yields exactly the full
ordered trace, and a run whose first pass fails aborts with only that
pass attempted. -/
theorem problem_setup_ordered_passes_witness :
    ([SetupEvent.setup_processors, SetupEvent.setup_variables,
      SetupEvent.setup_variable_indices 0 0, SetupEvent.setup_connections,
      SetupEvent.setup_solvers, SetupEvent.assembler_setup_variables,
      SetupEvent.assembler_setup_connections, SetupEvent.assembler_setup_input_indices,
      SetupEvent.setup_vector_call] = fullSetupTrace) ∧
    (([SetupEvent.setup_processors] : List SetupEvent) ≠ [] ∧
      ∃ rest, [SetupEvent.setup_processors] ++ rest = fullSetupTrace) :=
  ⟨(problem_setup_ordered_passes exRootOk exAsmOk (fun s => some (s + 1)) 0).1 9 _ rfl,
   (problem_setup_ordered_passes exRootFail exAsmOk (fun s => some (s + 1)) 0).2 _ rfl⟩

/-- C7: `setup_vector` constructs exactly three vectors keyed `input`,
`output` and `residual`; the `residual` vector is built with the
`output` layout type and the other two with their own key's type. -/
theorem setup_vector_three_vectors {ρ Vec : Type}
    (VectorClass : Option String → String → ρ → Vec)
    (vec_name : Option String) (root : ρ) :
    setupVector VectorClass vec_name root =
      [("input", VectorClass vec_name "input" root),
       ("output", VectorClass vec_name "output" root),
       ("residual", VectorClass vec_name "output" root)] := by
  simp [setupVector]



/- ===== one-sided facts about applyOne ===== -/

theorem runEff_ok (st : AState) (k : String × String) (e : Eff) :
    (runEff st k e).2 = e.okFlag := by
  cases e <;> rfl

theorem runEff_meta (st : AState) (k : String × String) (e : Eff) :
    (runEff st k e).1.dres.names = st.dres.names ∧
    (runEff st k e).1.dout.names = st.dout.names ∧
    (runEff st k e).1.dinp.names = st.dinp.names ∧
    (runEff st k e).1.dres.ncol = st.dres.ncol ∧
    (runEff st k e).1.dres.vname = st.dres.vname ∧
    (runEff st k e).1.dout.scaled = st.dout.scaled ∧
    (runEff st k e).1.dres.scaled = st.dres.scaled := by
  cases e <;>
    simp [runEff, AState.setRes, AState.setOut, AState.setInp, VecE.setFlat]

theorem applyOne_preserves_meta (system : SystemE) (J : DictionaryJacobian)
    (fwd : Bool) (st : AState) (k : String × String) :
    (applyOne system J fwd st k).1.dres.names = st.dres.names ∧
    (applyOne system J fwd st k).1.dout.names = st.dout.names ∧
    (applyOne system J fwd st k).1.dinp.names = st.dinp.names ∧
    (applyOne system J fwd st k).1.dres.ncol = st.dres.ncol ∧
    (applyOne system J fwd st k).1.dres.vname = st.dres.vname := by
  unfold applyOne
  obtain ⟨h1, h2, h3, h4, h5, _⟩ := runEff_meta st k (applyEffect system J fwd
    st.dres.names st.dout.names st.dinp.names st.dres.ncol (st.dres.flat k.1)
    (st.dout.flat k.2) (st.dinp.flat k.2) k)
  exact ⟨h1, h2, h3, h4, h5⟩

theorem applyOne_frame_res (system : SystemE) (J : DictionaryJacobian)
    (fwd : Bool) (st : AState) (k : String × String) (v : String) (hv : v ≠ k.1) :
    (applyOne system J fwd st k).1.dres.flat v = st.dres.flat v := by
  unfold applyOne
  generalize applyEffect system J fwd st.dres.names st.dout.names st.dinp.names
    st.dres.ncol (st.dres.flat k.1) (st.dout.flat k.2) (st.dinp.flat k.2) k = e
  cases e <;>
    simp [runEff, AState.setRes, AState.setOut, AState.setInp, VecE.setFlat, hv]

theorem applyOne_frame_out (system : SystemE) (J : DictionaryJacobian)
    (fwd : Bool) (st : AState) (k : String × String) (v : String) (hv : v ≠ k.2) :
    (applyOne system J fwd st k).1.dout.flat v = st.dout.flat v := by
  unfold applyOne
  generalize applyEffect system J fwd st.dres.names st.dout.names st.dinp.names
    st.dres.ncol (st.dres.flat k.1) (st.dout.flat k.2) (st.dinp.flat k.2) k = e
  cases e <;>
    simp [runEff, AState.setRes, AState.setOut, AState.setInp, VecE.setFlat, hv]

theorem applyOne_frame_inp (system : SystemE) (J : DictionaryJacobian)
    (fwd : Bool) (st : AState) (k : String × String) (v : String) (hv : v ≠ k.2) :
    (applyOne system J fwd st k).1.dinp.flat v = st.dinp.flat v := by
  unfold applyOne
  generalize applyEffect system J fwd st.dres.names st.dout.names st.dinp.names
    st.dres.ncol (st.dres.flat k.1) (st.dout.flat k.2) (st.dinp.flat k.2) k = e
  cases e <;>
    simp [runEff, AState.setRes, AState.setOut, AState.setInp, VecE.setFlat, hv]

theorem applyEffect_inactive (system : SystemE) (J : DictionaryJacobian) (fwd : Bool)
    (rnames onames inames : List String) (ncol : Nat)
    (rflat oflat iflat : Nat → Nat → Int) (k : String × String)
    (h : ¬ activePair rnames onames inames k) :
    applyEffect system J fwd rnames onames inames ncol rflat oflat iflat k = Eff.err ∨
    applyEffect system J fwd rnames onames inames ncol rflat oflat iflat k = Eff.skip := by
  unfold activePair at h
  push_neg at h
  unfold applyEffect
  cases hl : dictLookup J.subjacs_info k with
  | none => exact Or.inl rfl
  | some info =>
    by_cases h1 : k.1 ∈ rnames
    · obtain ⟨h2, h3⟩ := h h1
      cases hr : info.rows with
      | some rows =>
        cases hv : (if J.randomize then J.randomize_subjac info.value k
            else info.value) with
        | mat a => exact Or.inl (by simp [h1, hr, hv])
        | flat v => exact Or.inr (by simp [h1, hr, hv, h2, h3])
      | none =>
        cases hv : (if J.randomize then J.randomize_subjac info.value k
            else info.value) with
        | flat v => exact Or.inl (by simp [h1, hr, hv])
        | mat a => exact Or.inr (by simp [h1, hr, hv, h2, h3])
    · exact Or.inr (by simp [h1])

theorem applyOne_inactive (system : SystemE) (J : DictionaryJacobian)
    (fwd : Bool) (st : AState) (k : String × String)
    (h : ¬ activePair st.dres.names st.dout.names st.dinp.names k) :
    (applyOne system J fwd st k).1 = st := by
  unfold applyOne
  rcases applyEffect_inactive system J fwd st.dres.names st.dout.names st.dinp.names
      st.dres.ncol (st.dres.flat k.1) (st.dout.flat k.2) (st.dinp.flat k.2) k h with
    he | he <;> rw [he] <;> rfl

/- ===== two-sided congruence facts ===== -/

theorem applyEffect_congr_inactive (system : SystemE) (J : DictionaryJacobian)
    (fwd : Bool) (rnames onames inames : List String) (ncol : Nat)
    (rf1 rf2 of1 of2 if1 if2 : Nat → Nat → Int) (k : String × String)
    (h : ¬ activePair rnames onames inames k) :
    applyEffect system J fwd rnames onames inames ncol rf1 of1 if1 k =
      applyEffect system J fwd rnames onames inames ncol rf2 of2 if2 k := by
  unfold activePair at h
  push_neg at h
  unfold applyEffect
  cases hl : dictLookup J.subjacs_info k with
  | none => rfl
  | some info =>
    by_cases h1 : k.1 ∈ rnames
    · obtain ⟨h2, h3⟩ := h h1
      cases hr : info.rows with
      | some rows =>
        cases hv : (if J.randomize then J.randomize_subjac info.value k
            else info.value) with
        | mat a => simp [h1, hr, hv]
        | flat v => simp [h1, hr, hv, h2, h3]
      | none =>
        cases hv : (if J.randomize then J.randomize_subjac info.value k
            else info.value) with
        | flat v => simp [h1, hr, hv]
        | mat a => simp [h1, hr, hv, h2, h3]
    · simp [h1]

theorem applyEffect_congr (system : SystemE) (J : DictionaryJacobian) (fwd : Bool)
    (rnames onames inames : List String) (ncol : Nat)
    (rflat of1 of2 if1 if2 : Nat → Nat → Int) (k : String × String)
    (ho : k.2 ∈ onames → of1 = of2) (hi : k.2 ∉ onames → if1 = if2) :
    applyEffect system J fwd rnames onames inames ncol rflat of1 if1 k =
      applyEffect system J fwd rnames onames inames ncol rflat of2 if2 k := by
  by_cases hmem : k.2 ∈ onames
  · rw [ho hmem]
    unfold applyEffect
    cases hl : dictLookup J.subjacs_info k with
    | none => rfl
    | some info => simp [hmem]
  · rw [hi hmem]
    unfold applyEffect
    cases hl : dictLookup J.subjacs_info k with
    | none => rfl
    | some info => simp [hmem]

theorem runEff_statesAgree (A : List (String × String)) (onames : List String)
    (s t : AState) (k : String × String) (e : Eff)
    (hA : statesAgree A onames s t) :
    statesAgree A onames (runEff s k e).1 (runEff t k e).1 := by
  cases e with
  | err => exact hA
  | skip => exact hA
  | wres g =>
    intro k2 hk2
    obtain ⟨h1, h2, h3⟩ := hA k2 hk2
    refine ⟨?_, h2, h3⟩
    by_cases hq : k2.1 = k.1 <;>
      simp [runEff, AState.setRes, VecE.setFlat, hq, h1]
  | wout g =>
    intro k2 hk2
    obtain ⟨h1, h2, h3⟩ := hA k2 hk2
    refine ⟨h1, ?_, h3⟩
    intro hmem
    by_cases hq : k2.2 = k.2 <;>
      simp [runEff, AState.setOut, VecE.setFlat, hq, h2 hmem]
  | winp g =>
    intro k2 hk2
    obtain ⟨h1, h2, h3⟩ := hA k2 hk2
    refine ⟨h1, h2, ?_⟩
    intro hmem
    by_cases hq : k2.2 = k.2 <;>
      simp [runEff, AState.setInp, VecE.setFlat, hq, h3 hmem]

theorem applyLoop_cons_eq (system : SystemE) (J : DictionaryJacobian) (fwd : Bool)
    (k : String × String) (ks : List (String × String)) (st : AState)
    (p : AState × Bool) (h : applyOne system J fwd st k = p) :
    applyLoop system J fwd (k :: ks) st =
      if p.2 then applyLoop system J fwd ks p.1 else (p.1, false) := by
  cases p with
  | mk st2 ok => cases ok <;> simp [applyLoop, h]

theorem applyLoop_preserves_meta (system : SystemE) (J : DictionaryJacobian)
    (fwd : Bool) (keys : List (String × String)) :
    ∀ st : AState,
      (applyLoop system J fwd keys st).1.dres.names = st.dres.names ∧
      (applyLoop system J fwd keys st).1.dout.names = st.dout.names ∧
      (applyLoop system J fwd keys st).1.dinp.names = st.dinp.names ∧
      (applyLoop system J fwd keys st).1.dres.ncol = st.dres.ncol ∧
      (applyLoop system J fwd keys st).1.dres.vname = st.dres.vname := by
  induction keys with
  | nil => intro st; exact ⟨rfl, rfl, rfl, rfl, rfl⟩
  | cons k ks ih =>
    intro st
    cases happ : applyOne system J fwd st k with
    | mk st2 ok =>
      have hm := applyOne_preserves_meta system J fwd st k
      rw [happ] at hm
      obtain ⟨hm1, hm2, hm3, hm4, hm5⟩ := hm
      rw [applyLoop_cons_eq system J fwd k ks st (st2, ok) happ]
      cases ok
      · simpa using ⟨hm1, hm2, hm3, hm4, hm5⟩
      · obtain ⟨i1, i2, i3, i4, i5⟩ := ih st2
        simpa using ⟨i1.trans hm1, i2.trans hm2, i3.trans hm3, i4.trans hm4,
          i5.trans hm5⟩

theorem applyLoop_frame (system : SystemE) (J : DictionaryJacobian) (fwd : Bool)
    (keys : List (String × String)) :
    ∀ (st : AState) (v : String),
      ((∀ k ∈ keys, activePair st.dres.names st.dout.names st.dinp.names k →
          k.1 ≠ v) →
        (applyLoop system J fwd keys st).1.dres.flat v = st.dres.flat v) ∧
      ((∀ k ∈ keys, activePair st.dres.names st.dout.names st.dinp.names k →
          k.2 ≠ v) →
        (applyLoop system J fwd keys st).1.dout.flat v = st.dout.flat v ∧
        (applyLoop system J fwd keys st).1.dinp.flat v = st.dinp.flat v) := by
  induction keys with
  | nil => intro st v; exact ⟨fun _ => rfl, fun _ => ⟨rfl, rfl⟩⟩
  | cons k ks ih =>
    intro st v
    cases happ : applyOne system J fwd st k with
    | mk st2 ok =>
      have hm := applyOne_preserves_meta system J fwd st k
      rw [happ] at hm
      obtain ⟨hm1, hm2, hm3, _, _⟩ := hm
      rw [applyLoop_cons_eq system J fwd k ks st (st2, ok) happ]
      by_cases ha : activePair st.dres.names st.dout.names st.dinp.names k
      · constructor
        · intro hall
          have hkv : k.1 ≠ v := hall k (by simp) ha
          have hfr : st2.dres.flat v = st.dres.flat v := by
            have hh := applyOne_frame_res system J fwd st k v hkv.symm
            rw [happ] at hh
            exact hh
          cases ok
          · simpa using hfr
          · have hnext := (ih st2 v).1 (by
              rw [hm1, hm2, hm3]
              intro k2 hk2 ha2
              exact hall k2 (by simp [hk2]) ha2)
            simpa using hnext.trans hfr
        · intro hall
          have hkv : k.2 ≠ v := hall k (by simp) ha
          have hfo : st2.dout.flat v = st.dout.flat v := by
            have hh := applyOne_frame_out system J fwd st k v hkv.symm
            rw [happ] at hh
            exact hh
          have hfi : st2.dinp.flat v = st.dinp.flat v := by
            have hh := applyOne_frame_inp system J fwd st k v hkv.symm
            rw [happ] at hh
            exact hh
          cases ok
          · simpa using ⟨hfo, hfi⟩
          · have hnext := (ih st2 v).2 (by
              rw [hm1, hm2, hm3]
              intro k2 hk2 ha2
              exact hall k2 (by simp [hk2]) ha2)
            simpa using ⟨hnext.1.trans hfo, hnext.2.trans hfi⟩
      · have hunch : st2 = st := by
          have hh := applyOne_inactive system J fwd st k ha
          rw [happ] at hh
          exact hh
        subst hunch
        constructor
        · intro hall
          cases ok
          · simp
          · have hnext := (ih st2 v).1 (by
              intro k2 hk2 ha2
              exact hall k2 (by simp [hk2]) ha2)
            simpa using hnext
        · intro hall
          cases ok
          · simp
          · have hnext := (ih st2 v).2 (by
              intro k2 hk2 ha2
              exact hall k2 (by simp [hk2]) ha2)
            simpa using hnext

theorem applyLoop_congr (system : SystemE) (J : DictionaryJacobian) (fwd : Bool)
    (A : List (String × String)) (keys : List (String × String)) :
    ∀ s t : AState,
      t.dres.names = s.dres.names → t.dout.names = s.dout.names →
      t.dinp.names = s.dinp.names → t.dres.ncol = s.dres.ncol →
      (∀ k ∈ keys, activePair s.dres.names s.dout.names s.dinp.names k → k ∈ A) →
      statesAgree A s.dout.names s t →
      (applyLoop system J fwd keys t).2 = (applyLoop system J fwd keys s).2 ∧
      statesAgree A s.dout.names (applyLoop system J fwd keys s).1
        (applyLoop system J fwd keys t).1 := by
  induction keys with
  | nil => intro s t _ _ _ _ _ hA; exact ⟨rfl, hA⟩
  | cons k ks ih =>
    intro s t hrn hon hin hnc hkeys hA
    have heff : applyEffect system J fwd t.dres.names t.dout.names t.dinp.names
        t.dres.ncol (t.dres.flat k.1) (t.dout.flat k.2) (t.dinp.flat k.2) k =
        applyEffect system J fwd s.dres.names s.dout.names s.dinp.names
        s.dres.ncol (s.dres.flat k.1) (s.dout.flat k.2) (s.dinp.flat k.2) k := by
      rw [hrn, hon, hin, hnc]
      by_cases ha : activePair s.dres.names s.dout.names s.dinp.names k
      · obtain ⟨h1, h2, h3⟩ := hA k (hkeys k (by simp) ha)
        rw [← h1]
        exact applyEffect_congr system J fwd s.dres.names s.dout.names s.dinp.names
          s.dres.ncol (s.dres.flat k.1) (t.dout.flat k.2) (s.dout.flat k.2)
          (t.dinp.flat k.2) (s.dinp.flat k.2) k
          (fun hm => (h2 hm).symm) (fun hm => (h3 hm).symm)
      · exact applyEffect_congr_inactive system J fwd s.dres.names s.dout.names
          s.dinp.names s.dres.ncol (t.dres.flat k.1) (s.dres.flat k.1)
          (t.dout.flat k.2) (s.dout.flat k.2) (t.dinp.flat k.2) (s.dinp.flat k.2)
          k ha
    have ht : applyOne system J fwd t k = runEff t k (applyEffect system J fwd
        s.dres.names s.dout.names s.dinp.names s.dres.ncol (s.dres.flat k.1)
        (s.dout.flat k.2) (s.dinp.flat k.2) k) := by
      unfold applyOne
      rw [heff]
    have hs : applyOne system J fwd s k = runEff s k (applyEffect system J fwd
        s.dres.names s.dout.names s.dinp.names s.dres.ncol (s.dres.flat k.1)
        (s.dout.flat k.2) (s.dinp.flat k.2) k) := rfl
    set e := applyEffect system J fwd s.dres.names s.dout.names s.dinp.names
        s.dres.ncol (s.dres.flat k.1) (s.dout.flat k.2) (s.dinp.flat k.2) k with he
    rw [applyLoop_cons_eq system J fwd k ks s (runEff s k e) hs,
        applyLoop_cons_eq system J fwd k ks t (runEff t k e) ht]
    rw [runEff_ok, runEff_ok]
    obtain ⟨ms1, ms2, ms3, ms4, _, _, _⟩ := runEff_meta s k e
    obtain ⟨mt1, mt2, mt3, mt4, _, _, _⟩ := runEff_meta t k e
    have hA2 : statesAgree A s.dout.names (runEff s k e).1 (runEff t k e).1 :=
      runEff_statesAgree A s.dout.names s t k e hA
    cases hok : e.okFlag
    · simp only [Bool.false_eq_true, if_false]
      exact ⟨trivial, hA2⟩
    · simp only [if_true]
      have hrec := ih (runEff s k e).1 (runEff t k e).1
        (by rw [mt1, ms1, hrn]) (by rw [mt2, ms2, hon]) (by rw [mt3, ms3, hin])
        (by rw [mt4, ms4, hnc])
        (by
          rw [ms1, ms2, ms3]
          intro k2 hk2 ha2
          exact hkeys k2 (by simp [hk2]) ha2)
        (by
          rw [ms2]
          exact hA2)
      refine ⟨hrec.1, ?_⟩
      have hh := hrec.2
      rw [ms2] at hh
      exact hh

/- ===== bridging from the loop to the full apply call ===== -/

theorem unscaledContext_scaled (body : AState → AState × Bool) (st : AState) :
    (unscaledContext body st).1.dout.scaled = st.dout.scaled ∧
    (unscaledContext body st).1.dres.scaled = st.dres.scaled :=
  ⟨rfl, rfl⟩

theorem unscaledContext_parts (body : AState → AState × Bool) (st : AState) :
    (unscaledContext body st).1.dinp = (body (enterUnscaled st)).1.dinp ∧
    (unscaledContext body st).1.dout.flat = (body (enterUnscaled st)).1.dout.flat ∧
    (unscaledContext body st).1.dres.flat = (body (enterUnscaled st)).1.dres.flat ∧
    (unscaledContext body st).2 = (body (enterUnscaled st)).2 :=
  ⟨rfl, rfl, rfl, rfl⟩

/-- C4: every call to `_apply` performs the scoped-unscaling acquisition
around the entire key loop, and the scaled representation of the outputs
and residuals vectors is restored to its pre-call state on every exit
path — the result flags are identical whether or not the loop aborted
with an error. -/
theorem apply_restores_scaling (system : SystemE) (J : DictionaryJacobian)
    (mode : String) (st : AState) :
    (applyJac system J mode st).1.1.dout.scaled = st.dout.scaled ∧
    (applyJac system J mode st).1.1.dres.scaled = st.dres.scaled ∧
    (applyJac system J mode st).1 = unscaledContext
      (fun s => applyLoop system (iterAbsKeysCached J system st.dres.vname).2
        (mode == "fwd") (iterAbsKeysCached J system st.dres.vname).1 s) st :=
  ⟨rfl, rfl, rfl⟩

/-- C3: a call to `_apply` only acts on pairs (response, source) that are
iterated (relevant, with a defined sub-Jacobian) and whose response is in
the residual vector's active-names set and whose source is in the
outputs or inputs active-names set: every residual entry that is not the
response of such a pair, and every outputs/inputs entry that is not the
source of such a pair, is left unchanged; and the call reads only the
entries of such pairs — two states agreeing on them (with the same name
sets, column count and RHS name) produce agreeing results.  The
`_iter_keys` cache is assumed coherent: empty for this entry or holding
the computed list. -/
theorem apply_touches_only_applied_pairs
    (system : SystemE) (J : DictionaryJacobian) (mode : String) (st : AState)
    (hcache : dictLookup J.iter_keys (system.pathname, st.dres.vname) = none ∨
      dictLookup J.iter_keys (system.pathname, st.dres.vname) =
        some (iterAbsKeys system J.subjacs_info st.dres.vname)) :
    (∀ v, (∀ k ∈ appliedKeys system J st, k.1 ≠ v) →
      (applyJac system J mode st).1.1.dres.flat v = st.dres.flat v) ∧
    (∀ v, (∀ k ∈ appliedKeys system J st, k.2 ≠ v) →
      (applyJac system J mode st).1.1.dout.flat v = st.dout.flat v ∧
      (applyJac system J mode st).1.1.dinp.flat v = st.dinp.flat v) ∧
    (∀ st2 : AState, st2.dres.vname = st.dres.vname →
      st2.dres.names = st.dres.names → st2.dout.names = st.dout.names →
      st2.dinp.names = st.dinp.names → st2.dres.ncol = st.dres.ncol →
      statesAgree (appliedKeys system J st) st.dout.names st st2 →
      (applyJac system J mode st2).1.2 = (applyJac system J mode st).1.2 ∧
      statesAgree (appliedKeys system J st) st.dout.names
        (applyJac system J mode st).1.1 (applyJac system J mode st2).1.1) := by
  have hused : (iterAbsKeysCached J system st.dres.vname).1 =
      iterAbsKeys system J.subjacs_info st.dres.vname := by
    rcases hcache with h | h <;> simp [iterAbsKeysCached, h]
  refine ⟨?_, ?_, ?_⟩
  · intro v hall
    show (applyLoop system (iterAbsKeysCached J system st.dres.vname).2
        (mode == "fwd") (iterAbsKeysCached J system st.dres.vname).1
        (enterUnscaled st)).1.dres.flat v = st.dres.flat v
    refine ((applyLoop_frame system (iterAbsKeysCached J system st.dres.vname).2
      (mode == "fwd") (iterAbsKeysCached J system st.dres.vname).1
      (enterUnscaled st) v).1 ?_ : _)
    intro k hk ha
    refine hall k ?_
    rw [hused] at hk
    exact List.mem_filter.mpr ⟨hk, decide_eq_true ha⟩
  · intro v hall
    show (applyLoop system (iterAbsKeysCached J system st.dres.vname).2
        (mode == "fwd") (iterAbsKeysCached J system st.dres.vname).1
        (enterUnscaled st)).1.dout.flat v = st.dout.flat v ∧
      (applyLoop system (iterAbsKeysCached J system st.dres.vname).2
        (mode == "fwd") (iterAbsKeysCached J system st.dres.vname).1
        (enterUnscaled st)).1.dinp.flat v = st.dinp.flat v
    refine ((applyLoop_frame system (iterAbsKeysCached J system st.dres.vname).2
      (mode == "fwd") (iterAbsKeysCached J system st.dres.vname).1
      (enterUnscaled st) v).2 ?_ : _)
    intro k hk ha
    refine hall k ?_
    rw [hused] at hk
    exact List.mem_filter.mpr ⟨hk, decide_eq_true ha⟩
  · intro st2 hvn hrn hon hin hnc hagree
    have hcong := applyLoop_congr system (iterAbsKeysCached J system st.dres.vname).2
      (mode == "fwd") (appliedKeys system J st)
      (iterAbsKeysCached J system st.dres.vname).1
      (enterUnscaled st) (enterUnscaled st2) hrn hon hin hnc
      (by
        intro k hk ha
        rw [hused] at hk
        exact List.mem_filter.mpr ⟨hk, decide_eq_true ha⟩)
      hagree
    constructor
    · show (applyLoop system (iterAbsKeysCached J system st2.dres.vname).2
          (mode == "fwd") (iterAbsKeysCached J system st2.dres.vname).1
          (enterUnscaled st2)).2 =
        (applyLoop system (iterAbsKeysCached J system st.dres.vname).2
          (mode == "fwd") (iterAbsKeysCached J system st.dres.vname).1
          (enterUnscaled st)).2
      rw [hvn]
      exact hcong.1
    · show statesAgree (appliedKeys system J st) st.dout.names
        (applyLoop system (iterAbsKeysCached J system st.dres.vname).2
          (mode == "fwd") (iterAbsKeysCached J system st.dres.vname).1
          (enterUnscaled st)).1
        (applyLoop system (iterAbsKeysCached J system st2.dres.vname).2
          (mode == "fwd") (iterAbsKeysCached J system st2.dres.vname).1
          (enterUnscaled st2)).1
      rw [hvn]
      exact hcong.2

/-- Witness for C3: for the concrete one-pair jacobian, a call in forward
mode leaves the residual entry of `x` (not a response of any applied
pair) and the outputs entry of `x` (not a source of any applied pair)
unchanged. -/
theorem apply_touches_only_applied_pairs_witness :
    (applyJac exSysExp exJplusI "fwd" exSt).1.1.dres.flat "x" = exSt.dres.flat "x" ∧
    (applyJac exSysExp exJplusI "fwd" exSt).1.1.dout.flat "x" = exSt.dout.flat "x" :=
  ⟨(apply_touches_only_applied_pairs exSysExp exJplusI "fwd" exSt (Or.inl rfl)).1
      "x" (by decide),
    ((apply_touches_only_applied_pairs exSysExp exJplusI "fwd" exSt (Or.inl rfl)).2.1
      "x" (by decide)).1⟩

/- ===== sum regrouping: CSC order versus COO scatter order ===== -/

theorem groupedSum_eq (n nnz : Nat) (g h : Nat → Nat) (t : Nat → Int) (j : Nat)
    (hb : ∀ k, k < nnz → g k < n) :
    (∑ c ∈ Finset.range n, ∑ k ∈ Finset.range nnz,
      if g k = c ∧ h k = j then t k else 0) =
      ∑ k ∈ Finset.range nnz, if h k = j then t k else 0 := by
  rw [Finset.sum_comm]
  refine Finset.sum_congr rfl ?_
  intro k hk
  rw [Finset.mem_range] at hk
  have hg : g k ∈ Finset.range n := Finset.mem_range.mpr (hb k hk)
  have step : ∀ c ∈ Finset.range n,
      (if g k = c ∧ h k = j then t k else 0) =
        if g k = c then (if h k = j then t k else 0) else 0 := by
    intro c _
    by_cases h1 : g k = c <;> by_cases h2 : h k = j <;> simp [h1, h2]
  rw [Finset.sum_congr rfl step, Finset.sum_ite_eq]
  simp [hg]

theorem cscDot_eq_cooDot (ncols nnz : Nat) (rows cols : Nat → Nat)
    (vals : Nat → Int) (x : Nat → Int) (j : Nat)
    (hb : ∀ k, k < nnz → cols k < ncols) :
    cscDot ncols nnz rows cols vals x j = cooDot nnz rows cols vals x j := by
  unfold cscDot cooDot
  rw [groupedSum_eq ncols nnz cols rows (fun k => vals k * x (cols k)) j hb]
  refine Finset.sum_congr rfl ?_
  intro k _
  by_cases h1 : rows k = j <;> simp [h1, mul_comm]

theorem cscTDot_eq_cooTDot (nrows nnz : Nat) (rows cols : Nat → Nat)
    (vals : Nat → Int) (y : Nat → Int) (c : Nat)
    (hb : ∀ k, k < nnz → rows k < nrows) :
    cscTDot nrows nnz rows cols vals y c = cooTDot nnz rows cols vals y c := by
  unfold cscTDot cooTDot
  rw [groupedSum_eq nrows nnz rows cols (fun k => vals k * y (rows k)) c hb]
  refine Finset.sum_congr rfl ?_
  intro k _
  by_cases h1 : cols k = c <;> simp [h1, mul_comm]

theorem cooDot_id_neg (n : Nat) (x : Nat → Int) (j : Nat) (hj : j < n) :
    cooDot n (fun k => k) (fun k => k) (fun _ => -1) x j = -x j := by
  unfold cooDot
  rw [Finset.sum_ite_eq' (Finset.range n) j (fun k => x k * -1)]
  simp [Finset.mem_range.mpr hj]

theorem cooTDot_id_neg (n : Nat) (y : Nat → Int) (c : Nat) (hc : c < n) :
    cooTDot n (fun k => k) (fun k => k) (fun _ => -1) y c = -y c := by
  unfold cooTDot
  rw [Finset.sum_ite_eq' (Finset.range n) c (fun k => y k * -1)]
  simp [Finset.mem_range.mpr hc]

theorem negIdentity_bounds (n : Nat) :
    (∀ k, k < (negIdentitySubjac n).nnz →
      (negIdentitySubjac n).cols k < (negIdentitySubjac n).ncols) ∧
    (∀ k, k < (negIdentitySubjac n).nnz → (fun k => k) k < (negIdentitySubjac n).nrows) :=
  ⟨fun _ hk => hk, fun _ hk => hk⟩

/- ===== per-branch characterizations of applyOne ===== -/

theorem applyOne_shortcut_char (system : SystemE) (J : DictionaryJacobian)
    (st : AState) (r o : String) (info : SubjacInfo) (rows : Nat → Nat)
    (v : Nat → Int)
    (hl : dictLookup J.subjacs_info (r, o) = some info)
    (hrand : J.randomize = false)
    (hrows : info.rows = some rows) (hval : info.value = SJVal.flat v)
    (hres : r ∈ st.dres.names) (hout : o ∈ st.dout.names)
    (hself : r = o) (hexp : system.is_explicit = true) :
    applyOne system J true st (r, o) = (st.setRes r (fun i j =>
      if i < st.dres.ncol then st.dres.flat r i j - st.dout.flat o i j
      else st.dres.flat r i j), true) ∧
    applyOne system J false st (r, o) = (st.setOut o (fun i j =>
      if i < st.dres.ncol then st.dout.flat o i j - st.dres.flat r i j
      else st.dout.flat o i j), true) := by
  subst hself
  constructor <;>
  · unfold applyOne applyEffect
    simp [hl, hrand, hrows, hval, hres, hout, hexp, runEff]

theorem applyOne_dense_out_char (system : SystemE) (J : DictionaryJacobian)
    (st : AState) (r o : String) (info : SubjacInfo) (a : Nat → Nat → Int)
    (hl : dictLookup J.subjacs_info (r, o) = some info)
    (hrand : J.randomize = false)
    (hrows : info.rows = none) (hval : info.value = SJVal.mat a)
    (hres : r ∈ st.dres.names) (hout : o ∈ st.dout.names) :
    applyOne system J true st (r, o) = (st.setRes r (fun i j =>
      if i < st.dres.ncol then
        st.dres.flat r i j + denseDot a info.ncols (st.dout.flat o i) j
      else st.dres.flat r i j), true) ∧
    applyOne system J false st (r, o) = (st.setOut o (fun i j =>
      if i < st.dres.ncol then
        st.dout.flat o i j + denseTDot a info.nrows (st.dres.flat r i) j
      else st.dout.flat o i j), true) := by
  constructor <;>
  · unfold applyOne applyEffect
    simp [hl, hrand, hrows, hval, hres, hout, runEff]

theorem applyOne_dense_inp_char (system : SystemE) (J : DictionaryJacobian)
    (st : AState) (r o : String) (info : SubjacInfo) (a : Nat → Nat → Int)
    (hl : dictLookup J.subjacs_info (r, o) = some info)
    (hrand : J.randomize = false)
    (hrows : info.rows = none) (hval : info.value = SJVal.mat a)
    (hres : r ∈ st.dres.names) (hout : o ∉ st.dout.names) (hinp : o ∈ st.dinp.names) :
    applyOne system J true st (r, o) = (st.setRes r (fun i j =>
      if i < st.dres.ncol then
        st.dres.flat r i j + denseDot a info.ncols (st.dinp.flat o i) j
      else st.dres.flat r i j), true) ∧
    applyOne system J false st (r, o) = (st.setInp o (fun i j =>
      if i < st.dres.ncol then
        st.dinp.flat o i j + denseTDot a info.nrows (st.dres.flat r i) j
      else st.dinp.flat o i j), true) := by
  constructor <;>
  · unfold applyOne applyEffect
    simp [hl, hrand, hrows, hval, hres, hout, hinp, runEff]

theorem applyOne_sparse_out_char (system : SystemE) (J : DictionaryJacobian)
    (st : AState) (r o : String) (info : SubjacInfo) (rows : Nat → Nat)
    (v : Nat → Int)
    (hl : dictLookup J.subjacs_info (r, o) = some info)
    (hrand : J.randomize = false)
    (hrows : info.rows = some rows) (hval : info.value = SJVal.flat v)
    (hres : r ∈ st.dres.names) (hout : o ∈ st.dout.names)
    (hns : ¬(r = o ∧ system.is_explicit = true))
    (hcb : ∀ k, k < info.nnz → info.cols k < info.ncols)
    (hrb : ∀ k, k < info.nnz → rows k < info.nrows) :
    applyOne system J true st (r, o) = (st.setRes r (fun i j =>
      if i < st.dres.ncol then
        st.dres.flat r i j + cooDot info.nnz rows info.cols v (st.dout.flat o i) j
      else st.dres.flat r i j), true) ∧
    applyOne system J false st (r, o) = (st.setOut o (fun i j =>
      if i < st.dres.ncol then
        st.dout.flat o i j + cooTDot info.nnz rows info.cols v (st.dres.flat r i) j
      else st.dout.flat o i j), true) := by
  constructor
  · by_cases hc : st.dres.ncol > 1
    · unfold applyOne applyEffect
      simp [hl, hrand, hrows, hval, hres, hout, hns, hc, runEff]
    · have hg : (fun i j => if i < st.dres.ncol then
          st.dres.flat r i j +
            cscDot info.ncols info.nnz rows info.cols v (st.dout.flat o i) j
          else st.dres.flat r i j) = (fun i j => if i < st.dres.ncol then
          st.dres.flat r i j +
            cooDot info.nnz rows info.cols v (st.dout.flat o i) j
          else st.dres.flat r i j) := by
        funext i j
        by_cases hij : i < st.dres.ncol <;>
          simp [hij,
            cscDot_eq_cooDot info.ncols info.nnz rows info.cols v (st.dout.flat o i) j hcb]
      unfold applyOne applyEffect
      simp [hl, hrand, hrows, hval, hres, hout, hns, hc, runEff]
      rw [← hg]
  · by_cases hc : st.dres.ncol > 1
    · unfold applyOne applyEffect
      simp [hl, hrand, hrows, hval, hres, hout, hns, hc, runEff]
    · have hg : (fun i j => if i < st.dres.ncol then
          st.dout.flat o i j +
            cscTDot info.nrows info.nnz rows info.cols v (st.dres.flat r i) j
          else st.dout.flat o i j) = (fun i j => if i < st.dres.ncol then
          st.dout.flat o i j +
            cooTDot info.nnz rows info.cols v (st.dres.flat r i) j
          else st.dout.flat o i j) := by
        funext i j
        by_cases hij : i < st.dres.ncol <;>
          simp [hij,
            cscTDot_eq_cooTDot info.nrows info.nnz rows info.cols v (st.dres.flat r i) j hrb]
      unfold applyOne applyEffect
      simp [hl, hrand, hrows, hval, hres, hout, hns, hc, runEff]
      rw [← hg]

theorem applyOne_sparse_inp_char (system : SystemE) (J : DictionaryJacobian)
    (st : AState) (r o : String) (info : SubjacInfo) (rows : Nat → Nat)
    (v : Nat → Int)
    (hl : dictLookup J.subjacs_info (r, o) = some info)
    (hrand : J.randomize = false)
    (hrows : info.rows = some rows) (hval : info.value = SJVal.flat v)
    (hres : r ∈ st.dres.names) (hout : o ∉ st.dout.names) (hinp : o ∈ st.dinp.names)
    (hcb : ∀ k, k < info.nnz → info.cols k < info.ncols)
    (hrb : ∀ k, k < info.nnz → rows k < info.nrows) :
    applyOne system J true st (r, o) = (st.setRes r (fun i j =>
      if i < st.dres.ncol then
        st.dres.flat r i j + cooDot info.nnz rows info.cols v (st.dinp.flat o i) j
      else st.dres.flat r i j), true) ∧
    applyOne system J false st (r, o) = (st.setInp o (fun i j =>
      if i < st.dres.ncol then
        st.dinp.flat o i j + cooTDot info.nnz rows info.cols v (st.dres.flat r i) j
      else st.dinp.flat o i j), true) := by
  constructor
  · by_cases hc : st.dres.ncol > 1
    · unfold applyOne applyEffect
      simp [hl, hrand, hrows, hval, hres, hout, hinp, hc, runEff]
    · have hg : (fun i j => if i < st.dres.ncol then
          st.dres.flat r i j +
            cscDot info.ncols info.nnz rows info.cols v (st.dinp.flat o i) j
          else st.dres.flat r i j) = (fun i j => if i < st.dres.ncol then
          st.dres.flat r i j +
            cooDot info.nnz rows info.cols v (st.dinp.flat o i) j
          else st.dres.flat r i j) := by
        funext i j
        by_cases hij : i < st.dres.ncol <;>
          simp [hij,
            cscDot_eq_cooDot info.ncols info.nnz rows info.cols v (st.dinp.flat o i) j hcb]
      unfold applyOne applyEffect
      simp [hl, hrand, hrows, hval, hres, hout, hinp, hc, runEff]
      rw [← hg]
  · by_cases hc : st.dres.ncol > 1
    · unfold applyOne applyEffect
      simp [hl, hrand, hrows, hval, hres, hout, hinp, hc, runEff]
    · have hg : (fun i j => if i < st.dres.ncol then
          st.dinp.flat o i j +
            cscTDot info.nrows info.nnz rows info.cols v (st.dres.flat r i) j
          else st.dinp.flat o i j) = (fun i j => if i < st.dres.ncol then
          st.dinp.flat o i j +
            cooTDot info.nnz rows info.cols v (st.dres.flat r i) j
          else st.dinp.flat o i j) := by
        funext i j
        by_cases hij : i < st.dres.ncol <;>
          simp [hij,
            cscTDot_eq_cooTDot info.nrows info.nnz rows info.cols v (st.dres.flat r i) j hrb]
      unfold applyOne applyEffect
      simp [hl, hrand, hrows, hval, hres, hout, hinp, hc, runEff]
      rw [← hg]

/- ===================== claims C1, C2, C9 ===================== -/

/-- C1 counterexample: on the sparse self pair of an explicit component the
engine subtracts the source regardless of the stored sub-Jacobian values:
with a stored `+1` identity, the accumulated residual does not equal
`d_residuals[response] + subjac · d_source`. -/
theorem apply_pair_accumulation_counterexample :
    (applyOne exSysExp exJplusI true exSt ("y", "y")).1.dres.flat "y" 0 0 ≠
      exSt.dres.flat "y" 0 0 +
        cooDot 1 (fun k => k) (fun k => k) (fun _ => 1) (exSt.dout.flat "y" 0) 0 := by
  decide

/-- C1 (amended): for every pair the engine applies through the general
paths, forward mode accumulates `d_residuals[response] += subjac · d_source`
(the source read from `d_outputs` when output-active, else from
`d_inputs`) and reverse mode accumulates
`d_source += subjacᵗ · d_residuals[response]`, with no other vector entry
touched for that pair; the single exception, forced by the code, is the
self pair of an explicit component stored in sparse list format with an
output-active source, where the engine ignores the stored values and
subtracts (forward `d_residuals[response] -= d_source`, reverse
`d_source -= d_residuals[response]`), i.e. behaves as if the sub-Jacobian
were the negated identity. -/
theorem apply_pair_accumulation (system : SystemE) (J : DictionaryJacobian)
    (st : AState) (r o : String) (info : SubjacInfo)
    (hl : dictLookup J.subjacs_info (r, o) = some info)
    (hrand : J.randomize = false) (hres : r ∈ st.dres.names) :
    (∀ rows v, info.rows = some rows → info.value = SJVal.flat v →
      (∀ k, k < info.nnz → info.cols k < info.ncols) →
      (∀ k, k < info.nnz → rows k < info.nrows) →
      o ∈ st.dout.names → ¬(r = o ∧ system.is_explicit = true) →
      applyOne system J true st (r, o) = (st.setRes r (fun i j =>
        if i < st.dres.ncol then
          st.dres.flat r i j + cooDot info.nnz rows info.cols v (st.dout.flat o i) j
        else st.dres.flat r i j), true) ∧
      applyOne system J false st (r, o) = (st.setOut o (fun i j =>
        if i < st.dres.ncol then
          st.dout.flat o i j + cooTDot info.nnz rows info.cols v (st.dres.flat r i) j
        else st.dout.flat o i j), true)) ∧
    (∀ rows v, info.rows = some rows → info.value = SJVal.flat v →
      (∀ k, k < info.nnz → info.cols k < info.ncols) →
      (∀ k, k < info.nnz → rows k < info.nrows) →
      o ∉ st.dout.names → o ∈ st.dinp.names →
      applyOne system J true st (r, o) = (st.setRes r (fun i j =>
        if i < st.dres.ncol then
          st.dres.flat r i j + cooDot info.nnz rows info.cols v (st.dinp.flat o i) j
        else st.dres.flat r i j), true) ∧
      applyOne system J false st (r, o) = (st.setInp o (fun i j =>
        if i < st.dres.ncol then
          st.dinp.flat o i j + cooTDot info.nnz rows info.cols v (st.dres.flat r i) j
        else st.dinp.flat o i j), true)) ∧
    (∀ a, info.rows = none → info.value = SJVal.mat a → o ∈ st.dout.names →
      applyOne system J true st (r, o) = (st.setRes r (fun i j =>
        if i < st.dres.ncol then
          st.dres.flat r i j + denseDot a info.ncols (st.dout.flat o i) j
        else st.dres.flat r i j), true) ∧
      applyOne system J false st (r, o) = (st.setOut o (fun i j =>
        if i < st.dres.ncol then
          st.dout.flat o i j + denseTDot a info.nrows (st.dres.flat r i) j
        else st.dout.flat o i j), true)) ∧
    (∀ a, info.rows = none → info.value = SJVal.mat a →
      o ∉ st.dout.names → o ∈ st.dinp.names →
      applyOne system J true st (r, o) = (st.setRes r (fun i j =>
        if i < st.dres.ncol then
          st.dres.flat r i j + denseDot a info.ncols (st.dinp.flat o i) j
        else st.dres.flat r i j), true) ∧
      applyOne system J false st (r, o) = (st.setInp o (fun i j =>
        if i < st.dres.ncol then
          st.dinp.flat o i j + denseTDot a info.nrows (st.dres.flat r i) j
        else st.dinp.flat o i j), true)) ∧
    (∀ rows v, info.rows = some rows → info.value = SJVal.flat v →
      o ∈ st.dout.names → r = o → system.is_explicit = true →
      applyOne system J true st (r, o) = (st.setRes r (fun i j =>
        if i < st.dres.ncol then st.dres.flat r i j - st.dout.flat o i j
        else st.dres.flat r i j), true) ∧
      applyOne system J false st (r, o) = (st.setOut o (fun i j =>
        if i < st.dres.ncol then st.dout.flat o i j - st.dres.flat r i j
        else st.dout.flat o i j), true)) := by
  refine ⟨?_, ?_, ?_, ?_, ?_⟩
  · intro rows v h1 h2 h3 h4 h5 h6
    exact applyOne_sparse_out_char system J st r o info rows v hl hrand h1 h2
      hres h5 h6 h3 h4
  · intro rows v h1 h2 h3 h4 h5 h6
    exact applyOne_sparse_inp_char system J st r o info rows v hl hrand h1 h2
      hres h5 h6 h3 h4
  · intro a h1 h2 h3
    exact applyOne_dense_out_char system J st r o info a hl hrand h1 h2 hres h3
  · intro a h1 h2 h3 h4
    exact applyOne_dense_inp_char system J st r o info a hl hrand h1 h2 hres h3 h4
  · intro rows v h1 h2 h3 h4 h5
    exact applyOne_shortcut_char system J st r o info rows v hl hrand h1 h2
      hres h3 h4 h5

/-- Witness for C1: the general sparse path applied to the concrete
negated-identity jacobian on a non-explicit system. -/
theorem apply_pair_accumulation_witness :
    applyOne (asImplicit exSysExp) exJnegI true exSt ("y", "y") =
      (exSt.setRes "y" (fun i j => if i < exSt.dres.ncol then
        exSt.dres.flat "y" i j +
          cooDot (negIdentitySubjac 1).nnz (fun k => k) (negIdentitySubjac 1).cols
            (fun _ => -1) (exSt.dout.flat "y" i) j
        else exSt.dres.flat "y" i j), true) :=
  ((apply_pair_accumulation (asImplicit exSysExp) exJnegI exSt "y" "y"
      (negIdentitySubjac 1) rfl rfl (by decide)).1 (fun k => k) (fun _ => -1)
    rfl rfl (fun _ hk => hk) (fun _ hk => hk) (by decide) (by decide)).1

/-- C2 counterexample: with a stored `+1` identity on the explicit self
pair, the shortcut path subtracts while the general matrix path with that
identity matrix adds — the resulting vector contents differ. -/
theorem shortcut_identity_counterexample :
    (applyOne exSysExp exJplusI true exSt ("y", "y")).1.dres.flat "y" 0 0 = -1 ∧
    (applyOne (asImplicit exSysExp) exJplusI true exSt ("y", "y")).1.dres.flat "y" 0 0
      = 1 ∧
    (-1 : Int) ≠ 1 := by
  exact ⟨by decide, by decide, by decide⟩

/-- C2 (amended): for an explicit component's sparse self pair with
output-active source, the special-cased pure add/subtract path produces
identical vector contents, on the allocated columns and the variable's
`n` entries, to running the general matrix-multiply path with the
negated identity matrix (`-I`) as the sub-Jacobian, in both forward and
reverse mode. -/
theorem shortcut_matches_negated_identity (system : SystemE)
    (J Jn : DictionaryJacobian) (st : AState) (r : String) (info : SubjacInfo)
    (rows : Nat → Nat) (v : Nat → Int) (n : Nat)
    (hexp : system.is_explicit = true)
    (hl : dictLookup J.subjacs_info (r, r) = some info)
    (hrand : J.randomize = false)
    (hrows : info.rows = some rows) (hval : info.value = SJVal.flat v)
    (hln : dictLookup Jn.subjacs_info (r, r) = some (negIdentitySubjac n))
    (hrandn : Jn.randomize = false)
    (hres : r ∈ st.dres.names) (hout : r ∈ st.dout.names) (fwd : Bool) :
    ∀ (name : String) (i j : Nat), i < st.dres.ncol → j < n →
      (applyOne system J fwd st (r, r)).1.dres.flat name i j =
        (applyOne (asImplicit system) Jn fwd st (r, r)).1.dres.flat name i j ∧
      (applyOne system J fwd st (r, r)).1.dout.flat name i j =
        (applyOne (asImplicit system) Jn fwd st (r, r)).1.dout.flat name i j ∧
      (applyOne system J fwd st (r, r)).1.dinp.flat name i j =
        (applyOne (asImplicit system) Jn fwd st (r, r)).1.dinp.flat name i j := by
  intro name i j hi hj
  have hns : ¬(r = r ∧ (asImplicit system).is_explicit = true) := by
    simp [asImplicit]
  have hS := applyOne_shortcut_char system J st r r info rows v hl hrand hrows
    hval hres hout rfl hexp
  have hG := applyOne_sparse_out_char (asImplicit system) Jn st r r
    (negIdentitySubjac n) (fun k => k) (fun _ => -1) hln hrandn rfl rfl hres hout
    hns (fun _ hk => hk) (fun _ hk => hk)
  cases fwd
  · rw [hS.2, hG.2]
    refine ⟨rfl, ?_, rfl⟩
    by_cases hn : name = r
    · subst hn
      simp only [AState.setOut, VecE.setFlat, negIdentitySubjac]
      simp only [if_pos rfl, hi, if_true]
      rw [cooTDot_id_neg n (st.dres.flat name i) j hj]
      ring
    · simp [AState.setOut, VecE.setFlat, hn]
  · rw [hS.1, hG.1]
    refine ⟨?_, rfl, rfl⟩
    by_cases hn : name = r
    · subst hn
      simp only [AState.setRes, VecE.setFlat, negIdentitySubjac]
      simp only [if_pos rfl, hi, if_true]
      rw [cooDot_id_neg n (st.dout.flat name i) j hj]
      ring
    · simp [AState.setRes, VecE.setFlat, hn]

/-- Witness for C2: at the concrete explicit self pair, the shortcut's
residual contents coincide with the general path run on the negated
identity. -/
theorem shortcut_matches_negated_identity_witness :
    (applyOne exSysExp exJplusI true exSt ("y", "y")).1.dres.flat "y" 0 0 =
      (applyOne (asImplicit exSysExp) exJnegI true exSt ("y", "y")).1.dres.flat
        "y" 0 0 :=
  (shortcut_matches_negated_identity exSysExp exJplusI exJnegI exSt "y"
    (identitySubjac 1) (fun k => k) (fun _ => 1) 1 rfl rfl rfl rfl rfl rfl rfl
    (by decide) (by decide) true "y" 0 0 (by decide) (by decide)).1

/-- C9: the explicit self-derivative shortcut fires only for a sub-Jacobian
stored in sparse row/col list format whose source name is in the outputs
vector's active names: a dense self sub-Jacobian of an explicit component
is applied through the general dense matrix path using its stored values,
a sparse self sub-Jacobian whose name is only input-active is applied
through the general sparse input path, and under the full shortcut
condition the engine performs the pure add/subtract. -/
theorem shortcut_condition (system : SystemE) (J : DictionaryJacobian)
    (st : AState) (r : String) (info : SubjacInfo)
    (hl : dictLookup J.subjacs_info (r, r) = some info)
    (hrand : J.randomize = false) (hres : r ∈ st.dres.names)
    (hexp : system.is_explicit = true) :
    (∀ a, info.rows = none → info.value = SJVal.mat a → r ∈ st.dout.names →
      applyOne system J true st (r, r) = (st.setRes r (fun i j =>
        if i < st.dres.ncol then
          st.dres.flat r i j + denseDot a info.ncols (st.dout.flat r i) j
        else st.dres.flat r i j), true) ∧
      applyOne system J false st (r, r) = (st.setOut r (fun i j =>
        if i < st.dres.ncol then
          st.dout.flat r i j + denseTDot a info.nrows (st.dres.flat r i) j
        else st.dout.flat r i j), true)) ∧
    (∀ rows v, info.rows = some rows → info.value = SJVal.flat v →
      r ∉ st.dout.names → r ∈ st.dinp.names →
      (∀ k, k < info.nnz → info.cols k < info.ncols) →
      (∀ k, k < info.nnz → rows k < info.nrows) →
      applyOne system J true st (r, r) = (st.setRes r (fun i j =>
        if i < st.dres.ncol then
          st.dres.flat r i j + cooDot info.nnz rows info.cols v (st.dinp.flat r i) j
        else st.dres.flat r i j), true) ∧
      applyOne system J false st (r, r) = (st.setInp r (fun i j =>
        if i < st.dres.ncol then
          st.dinp.flat r i j + cooTDot info.nnz rows info.cols v (st.dres.flat r i) j
        else st.dinp.flat r i j), true)) ∧
    (∀ rows v, info.rows = some rows → info.value = SJVal.flat v →
      r ∈ st.dout.names →
      applyOne system J true st (r, r) = (st.setRes r (fun i j =>
        if i < st.dres.ncol then st.dres.flat r i j - st.dout.flat r i j
        else st.dres.flat r i j), true) ∧
      applyOne system J false st (r, r) = (st.setOut r (fun i j =>
        if i < st.dres.ncol then st.dout.flat r i j - st.dres.flat r i j
        else st.dout.flat r i j), true)) := by
  refine ⟨?_, ?_, ?_⟩
  · intro a h1 h2 h3
    exact applyOne_dense_out_char system J st r r info a hl hrand h1 h2 hres h3
  · intro rows v h1 h2 h3 h4 h5 h6
    exact applyOne_sparse_inp_char system J st r r info rows v hl hrand h1 h2
      hres h3 h4 h5 h6
  · intro rows v h1 h2 h3
    exact applyOne_shortcut_char system J st r r info rows v hl hrand h1 h2
      hres h3 rfl hexp

/-- Witness for C9: the concrete dense `1 × 1` self sub-Jacobian of an
explicit component is applied through the dense matrix path with its
stored value `2`. -/
theorem shortcut_condition_witness :
    applyOne exSysExp exJdense true exSt ("y", "y") =
      (exSt.setRes "y" (fun i j => if i < exSt.dres.ncol then
        exSt.dres.flat "y" i j +
          denseDot (fun _ _ => 2) denseTwoSubjac.ncols (exSt.dout.flat "y" i) j
        else exSt.dres.flat "y" i j), true) :=
  ((shortcut_condition exSysExp exJdense exSt "y" denseTwoSubjac rfl rfl
    (by decide) rfl).1 (fun _ _ => 2) rfl rfl (by decide)).1

/-- C5: for a multi-column right-hand-side set, `_apply` on a COO-sparse
sub-Jacobian accumulates each column independently: each result column
equals the single-column product (the CSC matvec performed by the
single-column path) applied to that column alone, and the result in
column `i` depends only on column `i` of the operand vectors. -/
theorem multicolumn_independent (system : SystemE) (J : DictionaryJacobian)
    (st : AState) (r o : String) (info : SubjacInfo) (rows : Nat → Nat)
    (v : Nat → Int)
    (hl : dictLookup J.subjacs_info (r, o) = some info)
    (hrand : J.randomize = false)
    (hrows : info.rows = some rows) (hval : info.value = SJVal.flat v)
    (hres : r ∈ st.dres.names)
    (hcb : ∀ k, k < info.nnz → info.cols k < info.ncols)
    (hrb : ∀ k, k < info.nnz → rows k < info.nrows)
    (hncol : st.dres.ncol > 1) :
    (o ∈ st.dout.names → ¬(r = o ∧ system.is_explicit = true) →
      ∀ i, i < st.dres.ncol → ∀ j,
        (applyOne system J true st (r, o)).1.dres.flat r i j =
          st.dres.flat r i j +
            cscDot info.ncols info.nnz rows info.cols v (st.dout.flat o i) j ∧
        (applyOne system J false st (r, o)).1.dout.flat o i j =
          st.dout.flat o i j +
            cscTDot info.nrows info.nnz rows info.cols v (st.dres.flat r i) j) ∧
    (o ∉ st.dout.names → o ∈ st.dinp.names →
      ∀ i, i < st.dres.ncol → ∀ j,
        (applyOne system J true st (r, o)).1.dres.flat r i j =
          st.dres.flat r i j +
            cscDot info.ncols info.nnz rows info.cols v (st.dinp.flat o i) j ∧
        (applyOne system J false st (r, o)).1.dinp.flat o i j =
          st.dinp.flat o i j +
            cscTDot info.nrows info.nnz rows info.cols v (st.dres.flat r i) j) ∧
    (o ∈ st.dout.names → ¬(r = o ∧ system.is_explicit = true) →
      ∀ (st2 : AState) (i : Nat), i < st.dres.ncol →
        st2.dres.names = st.dres.names → st2.dout.names = st.dout.names →
        st2.dres.ncol = st.dres.ncol →
        (∀ j, st2.dres.flat r i j = st.dres.flat r i j) →
        (∀ j, st2.dout.flat o i j = st.dout.flat o i j) →
        (∀ j, st2.dinp.flat o i j = st.dinp.flat o i j) →
        (∀ j, (applyOne system J true st2 (r, o)).1.dres.flat r i j =
          (applyOne system J true st (r, o)).1.dres.flat r i j) ∧
        (∀ j, (applyOne system J false st2 (r, o)).1.dout.flat o i j =
          (applyOne system J false st (r, o)).1.dout.flat o i j) ∧
        (∀ j, (applyOne system J false st2 (r, o)).1.dinp.flat o i j =
          (applyOne system J false st (r, o)).1.dinp.flat o i j)) ∧
    (o ∉ st.dout.names → o ∈ st.dinp.names →
      ∀ (st2 : AState) (i : Nat), i < st.dres.ncol →
        st2.dres.names = st.dres.names → st2.dout.names = st.dout.names →
        st2.dinp.names = st.dinp.names → st2.dres.ncol = st.dres.ncol →
        (∀ j, st2.dres.flat r i j = st.dres.flat r i j) →
        (∀ j, st2.dinp.flat o i j = st.dinp.flat o i j) →
        (∀ j, (applyOne system J true st2 (r, o)).1.dres.flat r i j =
          (applyOne system J true st (r, o)).1.dres.flat r i j) ∧
        (∀ j, (applyOne system J false st2 (r, o)).1.dinp.flat o i j =
          (applyOne system J false st (r, o)).1.dinp.flat o i j)) := by
  refine ⟨?_, ?_, ?_, ?_⟩
  · intro h5 h6 i hi j
    have hchar := applyOne_sparse_out_char system J st r o info rows v hl hrand
      hrows hval hres h5 h6 hcb hrb
    constructor
    · rw [hchar.1]
      simp [AState.setRes, VecE.setFlat, hi]
      rw [cscDot_eq_cooDot info.ncols info.nnz rows info.cols v (st.dout.flat o i)
        j hcb]
    · rw [hchar.2]
      simp [AState.setOut, VecE.setFlat, hi]
      rw [cscTDot_eq_cooTDot info.nrows info.nnz rows info.cols v (st.dres.flat r i)
        j hrb]
  · intro h5 h6 i hi j
    have hchar := applyOne_sparse_inp_char system J st r o info rows v hl hrand
      hrows hval hres h5 h6 hcb hrb
    constructor
    · rw [hchar.1]
      simp [AState.setRes, VecE.setFlat, hi]
      rw [cscDot_eq_cooDot info.ncols info.nnz rows info.cols v (st.dinp.flat o i)
        j hcb]
    · rw [hchar.2]
      simp [AState.setInp, VecE.setFlat, hi]
      rw [cscTDot_eq_cooTDot info.nrows info.nnz rows info.cols v (st.dres.flat r i)
        j hrb]
  · intro h5 h6 st2 i hi hrn hon hnc hragree hoagree hiagree
    have hres2 : r ∈ st2.dres.names := by rw [hrn]; exact hres
    have hout2 : o ∈ st2.dout.names := by rw [hon]; exact h5
    have hchar1 := applyOne_sparse_out_char system J st r o info rows v hl hrand
      hrows hval hres h5 h6 hcb hrb
    have hchar2 := applyOne_sparse_out_char system J st2 r o info rows v hl hrand
      hrows hval hres2 hout2 h6 hcb hrb
    have hro : st2.dres.flat r i = st.dres.flat r i := funext hragree
    have hoo : st2.dout.flat o i = st.dout.flat o i := funext hoagree
    refine ⟨?_, ?_, ?_⟩
    · intro j
      rw [hchar1.1, hchar2.1]
      simp [AState.setRes, VecE.setFlat, hnc, hi]
      rw [hro, hoo]
    · intro j
      rw [hchar1.2, hchar2.2]
      simp [AState.setOut, VecE.setFlat, hnc, hi]
      rw [hro, hoo]
    · intro j
      rw [hchar1.2, hchar2.2]
      simp [AState.setOut]
      exact hiagree j
  · intro h5 h6 st2 i hi hrn hon hin hnc hragree hiagree
    have hres2 : r ∈ st2.dres.names := by rw [hrn]; exact hres
    have hout2 : o ∉ st2.dout.names := by rw [hon]; exact h5
    have hinp2 : o ∈ st2.dinp.names := by rw [hin]; exact h6
    have hchar1 := applyOne_sparse_inp_char system J st r o info rows v hl hrand
      hrows hval hres h5 h6 hcb hrb
    have hchar2 := applyOne_sparse_inp_char system J st2 r o info rows v hl hrand
      hrows hval hres2 hout2 hinp2 hcb hrb
    have hro : st2.dres.flat r i = st.dres.flat r i := funext hragree
    have hio : st2.dinp.flat o i = st.dinp.flat o i := funext hiagree
    constructor
    · intro j
      rw [hchar1.1, hchar2.1]
      simp [AState.setRes, VecE.setFlat, hnc, hi]
      rw [hro, hio]
    · intro j
      rw [hchar1.2, hchar2.2]
      simp [AState.setInp, VecE.setFlat, hnc, hi]
      rw [hro, hio]

/-- Witness for C5: in the two-column state, column `1` of the result of
the multi-column sparse path equals the single-column CSC product of
column `1`. -/
theorem multicolumn_independent_witness :
    (applyOne (asImplicit exSysExp) exJnegI true exStM ("y", "y")).1.dres.flat
        "y" 1 0 =
      exStM.dres.flat "y" 1 0 +
        cscDot (negIdentitySubjac 1).ncols (negIdentitySubjac 1).nnz (fun k => k)
          (negIdentitySubjac 1).cols (fun _ => -1) (exStM.dout.flat "y" 1) 0 :=
  (((multicolumn_independent (asImplicit exSysExp) exJnegI exStM "y" "y"
      (negIdentitySubjac 1) (fun k => k) (fun _ => -1) rfl rfl rfl rfl
      (by decide) (fun _ hk => hk) (fun _ hk => hk) (by decide)).1
    (by decide) (by decide) 1 (by decide) 0)).1

/- ===== facts for the error-freedom of apply ===== -/

theorem dictLookup_mem {α β : Type} [DecidableEq α] (l : List (α × β)) (a : α)
    (b : β) (h : dictLookup l a = some b) : (a, b) ∈ l := by
  induction l with
  | nil => cases h
  | cons kv rest ih =>
    unfold dictLookup at h
    by_cases hq : a = kv.1
    · rw [if_pos hq] at h
      cases h
      rw [hq]
      simp
    · rw [if_neg hq] at h
      exact List.mem_cons_of_mem _ (ih h)

theorem iterAbsKeys_isSome (system : SystemE)
    (subjacs : List ((String × String) × SubjacInfo)) (vec_name : String)
    (k : String × String) (hk : k ∈ iterAbsKeys system subjacs vec_name) :
    (dictLookup subjacs k).isSome = true := by
  simp only [iterAbsKeys, List.mem_flatMap, List.mem_map, List.mem_filter] at hk
  obtain ⟨res, _, t, _, name, ⟨_, hp⟩, rfl⟩ := hk
  exact hp

theorem applyEffect_ok (system : SystemE) (J : DictionaryJacobian) (fwd : Bool)
    (rnames onames inames : List String) (ncol : Nat)
    (rflat oflat iflat : Nat → Nat → Int) (k : String × String)
    (hrand : J.randomize = false)
    (hsome : (dictLookup J.subjacs_info k).isSome = true)
    (hwf : ∀ e ∈ J.subjacs_info, SubjacInfo.valMatches e.2 = true) :
    (applyEffect system J fwd rnames onames inames ncol rflat oflat iflat
      k).okFlag = true := by
  unfold applyEffect
  cases hl : dictLookup J.subjacs_info k with
  | none => rw [hl] at hsome; cases hsome
  | some info =>
    have hvm := hwf (k, info) (dictLookup_mem J.subjacs_info k info hl)
    by_cases h1 : k.1 ∈ rnames
    · cases hr : info.rows with
      | some rows =>
        cases hv : info.value with
        | mat a => simp [SubjacInfo.valMatches, hr, hv] at hvm
        | flat v =>
          simp only [h1, if_true, hr, hrand, Bool.false_eq_true, if_false, hv]
          split_ifs <;> rfl
      | none =>
        cases hv : info.value with
        | flat v => simp [SubjacInfo.valMatches, hr, hv] at hvm
        | mat a =>
          simp only [h1, if_true, hr, hrand, Bool.false_eq_true, if_false, hv]
          split_ifs <;> rfl
    · simp [h1, Eff.okFlag]

theorem applyLoop_ok (system : SystemE) (J : DictionaryJacobian) (fwd : Bool)
    (keys : List (String × String))
    (hrand : J.randomize = false)
    (hwf : ∀ e ∈ J.subjacs_info, SubjacInfo.valMatches e.2 = true)
    (hkeys : ∀ k ∈ keys, (dictLookup J.subjacs_info k).isSome = true) :
    ∀ st : AState, (applyLoop system J fwd keys st).2 = true := by
  induction keys with
  | nil => intro st; rfl
  | cons k ks ih =>
    intro st
    have hok : (applyOne system J fwd st k).2 = true := by
      unfold applyOne
      rw [runEff_ok]
      exact applyEffect_ok system J fwd st.dres.names st.dout.names st.dinp.names
        st.dres.ncol (st.dres.flat k.1) (st.dout.flat k.2) (st.dinp.flat k.2) k
        hrand (hkeys k (by simp)) hwf
    cases happ : applyOne system J fwd st k with
    | mk st2 ok =>
      rw [happ] at hok
      subst hok
      rw [applyLoop_cons_eq system J fwd k ks st (st2, true) happ]
      simpa using ih (fun k2 hk2 => hkeys k2 (by simp [hk2])) st2

/-- C8: a pair (response, source) of relevant names with no defined
sub-Jacobian entry is silently skipped by `_apply`: it is excluded from
the iterated key list (hence contributes nothing to any vector, by the
frame property of the iteration), and the call raises no error — with
well-formed stored entries the whole call reports success. -/
theorem missing_subjac_silently_skipped (system : SystemE)
    (J : DictionaryJacobian) (vec_name : String) (k : String × String)
    (hmiss : dictLookup J.subjacs_info k = none) :
    k ∉ iterAbsKeys system J.subjacs_info vec_name ∧
    (J.randomize = false →
      (∀ e ∈ J.subjacs_info, SubjacInfo.valMatches e.2 = true) →
      ∀ (st : AState) (mode : String),
        dictLookup J.iter_keys (system.pathname, st.dres.vname) = none →
        (applyJac system J mode st).1.2 = true) := by
  constructor
  · intro hk
    have hs := iterAbsKeys_isSome system J.subjacs_info vec_name k hk
    rw [hmiss] at hs
    cases hs
  · intro hrand hwf st mode hcache
    show (applyLoop system (iterAbsKeysCached J system st.dres.vname).2
        (mode == "fwd") (iterAbsKeysCached J system st.dres.vname).1
        (enterUnscaled st)).2 = true
    have hused : (iterAbsKeysCached J system st.dres.vname).1 =
        iterAbsKeys system J.subjacs_info st.dres.vname := by
      simp [iterAbsKeysCached, hcache]
    have hJ2 : (iterAbsKeysCached J system st.dres.vname).2.subjacs_info =
        J.subjacs_info := by
      simp [iterAbsKeysCached, hcache]
    have hJ2r : (iterAbsKeysCached J system st.dres.vname).2.randomize =
        J.randomize := by
      simp [iterAbsKeysCached, hcache]
    refine applyLoop_ok system (iterAbsKeysCached J system st.dres.vname).2
      (mode == "fwd") (iterAbsKeysCached J system st.dres.vname).1
      (by rw [hJ2r]; exact hrand) (by rw [hJ2]; exact hwf) ?_ (enterUnscaled st)
    intro k2 hk2
    rw [hJ2]
    rw [hused] at hk2
    exact iterAbsKeys_isSome system J.subjacs_info st.dres.vname k2 hk2

/-- Witness for C8: the relevant pair `(y, x)` has no stored sub-Jacobian
in the concrete jacobian; it is not iterated and the concrete forward
call reports success. -/
theorem missing_subjac_silently_skipped_witness :
    ("y", "x") ∉ iterAbsKeys exSysExp exJplusI.subjacs_info "lin" ∧
    (applyJac exSysExp exJplusI "fwd" exSt).1.2 = true :=
  ⟨(missing_subjac_silently_skipped exSysExp exJplusI "lin" ("y", "x") rfl).1,
    (missing_subjac_silently_skipped exSysExp exJplusI "lin" ("y", "x") rfl).2
      rfl (by decide) exSt "fwd" rfl⟩

theorem dictLookup_append_self {α β : Type} [DecidableEq α] (l : List (α × β))
    (a : α) (b : β) (h : dictLookup l a = none) :
    dictLookup (l ++ [(a, b)]) a = some b := by
  induction l with
  | nil => simp [dictLookup]
  | cons kv rest ih =>
    unfold dictLookup at h
    by_cases hq : a = kv.1
    · rw [if_pos hq] at h
      cases h
    · rw [if_neg hq] at h
      show dictLookup (kv :: (rest ++ [(a, b)])) a = some b
      unfold dictLookup
      rw [if_neg hq]
      exact ih h

/-- C10: the iterated key list is computed once per
`(system pathname, RHS vector name)` pair — the first call computes it
from the relevant names and the current `_subjacs_info` and stores it in
`_iter_keys` — and every later call with the same pair returns the cached
list unchanged whatever `_subjacs_info` now contains; in particular
`_apply` then runs over exactly the cached list, so a sub-Jacobian entry
defined after the first call (hence absent from the cached list) is
never applied. -/
theorem iter_keys_memoized (J : DictionaryJacobian) (system system2 : SystemE)
    (vec_name : String) :
    (dictLookup J.iter_keys (system.pathname, vec_name) = none →
      (iterAbsKeysCached J system vec_name).1 =
        iterAbsKeys system J.subjacs_info vec_name ∧
      dictLookup (iterAbsKeysCached J system vec_name).2.iter_keys
        (system.pathname, vec_name) =
        some (iterAbsKeys system J.subjacs_info vec_name)) ∧
    (∀ (J2 : DictionaryJacobian) (keys : List (String × String)),
      dictLookup J2.iter_keys (system2.pathname, vec_name) = some keys →
      iterAbsKeysCached J2 system2 vec_name = (keys, J2)) ∧
    (∀ (J2 : DictionaryJacobian) (keys : List (String × String))
        (k : String × String),
      dictLookup J2.iter_keys (system2.pathname, vec_name) = some keys →
      k ∉ keys → k ∉ (iterAbsKeysCached J2 system2 vec_name).1) ∧
    (∀ (J2 : DictionaryJacobian) (keys : List (String × String)) (st : AState)
        (mode : String),
      dictLookup J2.iter_keys (system2.pathname, vec_name) = some keys →
      st.dres.vname = vec_name →
      applyJac system2 J2 mode st =
        (unscaledContext
          (fun s => applyLoop system2 J2 (mode == "fwd") keys s) st, J2)) := by
  refine ⟨?_, ?_, ?_, ?_⟩
  · intro h
    refine ⟨by simp [iterAbsKeysCached, h], ?_⟩
    show dictLookup (iterAbsKeysCached J system vec_name).2.iter_keys
      (system.pathname, vec_name) = some (iterAbsKeys system J.subjacs_info vec_name)
    have : (iterAbsKeysCached J system vec_name).2.iter_keys =
        J.iter_keys ++ [((system.pathname, vec_name),
          iterAbsKeys system J.subjacs_info vec_name)] := by
      simp [iterAbsKeysCached, h]
    rw [this]
    exact dictLookup_append_self J.iter_keys (system.pathname, vec_name)
      (iterAbsKeys system J.subjacs_info vec_name) h
  · intro J2 keys h
    simp [iterAbsKeysCached, h]
  · intro J2 keys k h hk
    have : (iterAbsKeysCached J2 system2 vec_name).1 = keys := by
      simp [iterAbsKeysCached, h]
    rw [this]
    exact hk
  · intro J2 keys st mode h hvn
    unfold applyJac
    rw [hvn]
    have h2 : iterAbsKeysCached J2 system2 vec_name = (keys, J2) := by
      simp [iterAbsKeysCached, h]
    rw [h2]

/-- Witness for C10: the concrete first call computes and stores the key
list, and a call on the pre-cached jacobian returns the cached list with
the cache unchanged. -/
theorem iter_keys_memoized_witness :
    (iterAbsKeysCached exJplusI exSysExp "lin").1 =
      iterAbsKeys exSysExp exJplusI.subjacs_info "lin" ∧
    iterAbsKeysCached exJcached exSysExp "lin" = ([("y", "y")], exJcached) :=
  ⟨((iter_keys_memoized exJplusI exSysExp exSysExp "lin").1 rfl).1,
    (iter_keys_memoized exJplusI exSysExp exSysExp "lin").2.1 exJcached
      [("y", "y")] rfl⟩
